import Mathlib

/-!
# Account queries of the gRPC server (`pkg/grpc/server/accounts_api.go`)

A shallow embedding of the five account operations `GetBalances`, `GetScript`,
`GetActiveLeases`, `GetDataEntries` and `ResolveAlias`.

The ledger state (`s.state`) and the helpers of the `proto` package are read-only
collaborators: they are fields of `State` and `Packages`, never given a body here.
A Go result `(T, error)` whose value is read only when the error is nil is an
`Except Error T`; `IsActiveLeasing`, whose boolean is read whatever the error is, answers
a pair.  A streaming operation is a function
to a `Run`: the ordered trace of the store calls it issued and of the items it handed
to `srv.Send`, together with the `error` it returned (`none` is Go `nil`).
-/

set_option autoImplicit false
set_option linter.dupNamespace false

namespace AccountsApi

/-! ## Data model -/

/-- A Go byte slice. -/
abbrev Bytes := List Nat

/-- A Go `error` value: the text of `err.Error()` and the answer of
`stateerr.IsNotFound(err)`. -/
structure Error where
  msg : String
  notFound : Bool
  deriving DecidableEq, Repr

/-- The `errors.Wrap(err, message)` of `github.com/pkg/errors`: the message is put in front. -/
def Wrap (err : Error) (message : String) : Error :=
  { err with msg := message ++ ": " ++ err.msg }

/-- The gRPC status codes this file uses. -/
inductive Code where
  | InvalidArgument
  | NotFound
  | FailedPrecondition
  | Internal
  deriving DecidableEq, Repr

/-- The `error` an operation returns: `status.Error(code, msg)`, or a Go error handed
back as it came (`return nil, err`). -/
inductive RpcError where
  | status (code : Code) (msg : String)
  | raw (err : Error)
  deriving DecidableEq, Repr

/-- The conversion `int64(x)` of a `uint64`: the same 64 bits read as two's complement. -/
def int64 (x : Nat) : Int :=
  if x % 2 ^ 64 < 2 ^ 63 then ((x % 2 ^ 64 : Nat) : Int) else ((x % 2 ^ 64 : Nat) : Int) - 2 ^ 64

/-- Modelled from the spec: `crypto.DigestSize` is declared in `pkg/crypto`; the spec
calls an asset identifier an opaque fixed-length digest, and that length is 32 bytes. -/
def DigestSize : Nat := 32

/-- The `crypto.Digest` array, held as its bytes. -/
structure Digest where
  bytes : Bytes
  deriving DecidableEq, Repr

/-- Modelled from the spec: `crypto.NewDigestFromBytes` is declared in `pkg/crypto`; an
asset identifier is an opaque fixed-length digest, so the bytes are accepted exactly when
there are `DigestSize` of them and are copied unchanged. -/
def NewDigestFromBytes (b : Bytes) : Except Error Digest :=
  if b.length = DigestSize then .ok ⟨b⟩ else .error ⟨"invalid digest len", false⟩

/-- The method `Digest.Bytes()`. -/
def Digest.Bytes (d : Digest) : Bytes := d.bytes

structure WavesAddress where
  bytes : Bytes
  deriving DecidableEq, Repr

structure Alias where
  scheme : Nat
  name : String
  deriving DecidableEq, Repr

structure Recipient where
  key : Bytes
  deriving DecidableEq, Repr

structure AssetID where
  bytes : Bytes
  deriving DecidableEq, Repr

/-- The `proto.FullWavesBalance` of the store, six `uint64` fields. -/
structure FullWavesBalance where
  Regular : Nat
  Generating : Nat
  Available : Nat
  Effective : Nat
  LeaseIn : Nat
  LeaseOut : Nat
  deriving DecidableEq, Repr

/-- The protobuf message `BalanceResponse_WavesBalances`, six `int64` fields. -/
structure WavesBalances where
  Regular : Int
  Generating : Int
  Available : Int
  Effective : Int
  LeaseIn : Int
  LeaseOut : Int
  deriving DecidableEq, Repr

/-- The Go zero value `&g.BalanceResponse_WavesBalances{}`. -/
def WavesBalances.zero : WavesBalances := ⟨0, 0, 0, 0, 0, 0⟩

/-- The protobuf message `pb.Amount`. -/
structure Amount where
  AssetId : Bytes
  Amount : Int
  deriving DecidableEq, Repr

/-- The protobuf message `BalanceResponse` with its one-of field `Balance`. -/
inductive BalanceResponse where
  | Waves (w : WavesBalances)
  | Asset (a : Amount)
  deriving DecidableEq, Repr

/-- The value types of a data entry; `DataDelete` marks a removed entry. -/
inductive DataValueType where
  | DataInteger
  | DataBoolean
  | DataBinary
  | DataString
  | DataDelete
  deriving DecidableEq, Repr

/-- A `proto.DataEntry`: its key, the answer of `GetValueType()` and its payload. -/
structure DataEntry where
  Key : String
  ValueType : DataValueType
  Value : Bytes
  deriving DecidableEq, Repr

/-- The method `entry.GetValueType()`. -/
def DataEntry.GetValueType (e : DataEntry) : DataValueType := e.ValueType

/-- The protobuf form of a data entry, `entry.ToProtobuf()`. -/
structure PbDataEntry where
  Key : String
  Value : Bytes
  deriving DecidableEq, Repr

/-- The protobuf message `DataEntryResponse`. -/
structure DataEntryResponse where
  Address : Bytes
  Entry : PbDataEntry
  deriving DecidableEq, Repr

/-- The fields shared by `proto.LeaseWithSig` and `proto.LeaseWithProofs` that the
file reads.  `ID` is the digest behind the pointer `t.ID`; `Amount` is a `uint64`. -/
structure Lease where
  ID : Digest
  SenderPK : Bytes
  Recipient : Recipient
  Amount : Nat
  deriving DecidableEq, Repr

/-- The interface `proto.Transaction`: the two lease-creation types the file
switches on, and every other transaction type. -/
inductive Transaction where
  | LeaseWithSig (t : Lease)
  | LeaseWithProofs (t : Lease)
  | Other (typeTag : Nat)
  deriving DecidableEq, Repr

/-- The `proto.TransactionStatus` that the iterator yields with each transaction. -/
abbrev TransactionStatus := Nat

/-- The protobuf message `LeaseResponse`. -/
structure LeaseResponse where
  LeaseId : Bytes
  OriginTransactionId : Bytes
  Sender : Bytes
  Recipient : Bytes
  Amount : Int
  Height : Int
  deriving DecidableEq, Repr

structure ScriptInfo where
  script : Bytes
  deriving DecidableEq, Repr

structure ScriptResponse where
  ScriptBytes : Bytes
  deriving DecidableEq, Repr

/-! ## Collaborators -/

/-- The ledger state behind `s.state`, one field per method the file calls.
`NewAddrTransactionsIterator` may answer a nil iterator (`none`); an iterator is the
finite sequence of `(transaction, status)` pairs it yields.
`IsActiveLeasing` answers the Go pair `(bool, error)` as a pair, the error being
`none` for Go `nil`, because its caller reads the boolean whatever the error is. -/
structure State where
  FullWavesBalance : Recipient → Except Error FullWavesBalance
  AssetBalance : Recipient → AssetID → Except Error Nat
  ScriptInfoByAccount : Recipient → Except Error ScriptInfo
  ProvidesExtendedApi : Except Error Bool
  IsActiveLeasing : Digest → Bool × Option Error
  NewAddrTransactionsIterator :
    WavesAddress → Except Error (Option (List (Transaction × TransactionStatus)))
  TransactionHeightByID : Bytes → Except Error Nat
  RetrieveEntry : Recipient → String → Except Error DataEntry
  RetrieveEntries : Recipient → Except Error (List DataEntry)
  AddrByAlias : Alias → Except Error WavesAddress

/-- The functions of the imported packages (`proto`, the protobuf converter) that the
file calls and that are declared elsewhere; they are parameters of the model. -/
structure Packages where
  /-- The call `c.Address(s.scheme, req.Address)` of `proto.ProtobufConverter`. -/
  Address : Nat → Bytes → Except Error WavesAddress
  NewRecipientFromAddress : WavesAddress → Recipient
  AssetIDFromDigest : Digest → AssetID
  /-- The method `balanceInfo.ToProtobuf()`. -/
  WavesToProtobuf : FullWavesBalance → WavesBalances
  /-- The method `entry.ToProtobuf()`. -/
  EntryToProtobuf : DataEntry → PbDataEntry
  /-- The method `scriptInfo.ToScriptResponseProtobuf()`. -/
  ToScriptResponseProtobuf : ScriptInfo → ScriptResponse
  NewAddressFromPublicKey : Nat → Bytes → Except Error WavesAddress
  /-- The method `recipient.ToProtobuf()`. -/
  RecipientToProtobuf : Recipient → Except Error Bytes
  NewAlias : Nat → String → Alias

/-- The receiver `*Server`. -/
structure Server where
  scheme : Nat
  state : State
  pkg : Packages

/-- A call of a method of `s.state`, as recorded in a trace. -/
inductive StoreCall where
  | FullWavesBalance (rcp : Recipient)
  | AssetBalance (rcp : Recipient) (asset : AssetID)
  | ProvidesExtendedApi
  | IsActiveLeasing (id : Digest)
  | NewAddrTransactionsIterator (addr : WavesAddress)
  | TransactionHeightByID (id : Bytes)
  | RetrieveEntry (rcp : Recipient) (key : String)
  | RetrieveEntries (rcp : Recipient)
  deriving DecidableEq, Repr

/-- One observable step of a streaming operation. -/
inductive Event (Item : Type) where
  | call (c : StoreCall)
  | send (item : Item)
  deriving DecidableEq, Repr

/-- The steps of an operation so far, oldest first. -/
abbrev Trace (Item : Type) := List (Event Item)

/-- The items handed to `srv.Send`, in order. -/
def sent {Item : Type} : Trace Item → List Item
  | [] => []
  | .call _ :: tr => sent tr
  | .send item :: tr => item :: sent tr

/-- The store calls issued, in order. -/
def calls {Item : Type} : Trace Item → List StoreCall
  | [] => []
  | .call c :: tr => c :: calls tr
  | .send _ :: tr => calls tr

/-- The server side of a stream, `srv`.  `Send history item` is the result of handing
`item` to `srv.Send` after the items of `history`: `none` is Go `nil`. -/
structure Stream (Item : Type) where
  Send : List Item → Item → Option Error

/-- What a streaming operation did and the `error` it returned. -/
structure Run (Item : Type) where
  trace : Trace Item
  err : Option RpcError

/-! ## `GetBalances` -/

structure BalancesRequest where
  Address : Bytes
  Assets : List Bytes

/-- The response that `sendWavesBalance` builds from the answer of `FullWavesBalance`:
the zero record when the lookup failed, the converted balance otherwise. -/
def wavesResponse (s : Server) (rcp : Recipient) : BalanceResponse :=
  match s.state.FullWavesBalance rcp with
  | .error _ => .Waves WavesBalances.zero
  | .ok balanceInfo => .Waves (s.pkg.WavesToProtobuf balanceInfo)

/-- The method `sendWavesBalance`: the lookup, then `srv.Send` of the response, whose
error is the one returned. -/
def sendWavesBalance (s : Server) (rcp : Recipient) (srv : Stream BalanceResponse)
    (tr : Trace BalanceResponse) : Trace BalanceResponse × Option Error :=
  let tr1 := tr ++ [.call (.FullWavesBalance rcp)]
  let res : BalanceResponse := wavesResponse s rcp
  (tr1 ++ [.send res], srv.Send (sent tr1) res)

/-- The store call that the loop of `GetBalances` issues for the identifier `asset`:
the native balance for the empty marker, the asset balance of its digest otherwise. -/
def lookupFor (s : Server) (rcp : Recipient) (asset : Bytes) : StoreCall :=
  if asset.length = 0 then .FullWavesBalance rcp
  else .AssetBalance rcp (s.pkg.AssetIDFromDigest ⟨asset⟩)

/-- The loop `for _, asset := range req.Assets` of `GetBalances`. -/
def balancesLoop (s : Server) (rcp : Recipient) (srv : Stream BalanceResponse) :
    List Bytes → Trace BalanceResponse → Run BalanceResponse
  | [], tr => ⟨tr, none⟩
  | asset :: rest, tr =>
    if asset.length = 0 then
      match sendWavesBalance s rcp srv tr with
      | (tr1, some err) => ⟨tr1, some (.status .Internal err.msg)⟩
      | (tr1, none) => balancesLoop s rcp srv rest tr1
    else
      match NewDigestFromBytes asset with
      | .error err => ⟨tr, some (.status .InvalidArgument err.msg)⟩
      | .ok fullAssetID =>
        let tr1 := tr ++ [.call (.AssetBalance rcp (s.pkg.AssetIDFromDigest fullAssetID))]
        match s.state.AssetBalance rcp (s.pkg.AssetIDFromDigest fullAssetID) with
        | .error err => ⟨tr1, some (.status .NotFound err.msg)⟩
        | .ok balance =>
          let res : BalanceResponse := .Asset ⟨fullAssetID.Bytes, int64 balance⟩
          match srv.Send (sent tr1) res with
          | some err => ⟨tr1 ++ [.send res], some (.status .Internal err.msg)⟩
          | none => balancesLoop s rcp srv rest (tr1 ++ [.send res])

/-- The method `GetBalances`. -/
def GetBalances (s : Server) (req : BalancesRequest) (srv : Stream BalanceResponse) :
    Run BalanceResponse :=
  match s.pkg.Address s.scheme req.Address with
  | .error err => ⟨[], some (.status .InvalidArgument err.msg)⟩
  | .ok addr =>
    let rcp := s.pkg.NewRecipientFromAddress addr
    let first : Trace BalanceResponse × Option Error :=
      if req.Assets.length = 0 then sendWavesBalance s rcp srv [] else ([], none)
    match first with
    | (tr, some err) => ⟨tr, some (.status .Internal err.msg)⟩
    | (tr, none) => balancesLoop s rcp srv req.Assets tr

/-! ## `GetScript` and `ResolveAlias` -/

structure AccountRequest where
  Address : Bytes

/-- The method `GetScript`. -/
def GetScript (s : Server) (req : AccountRequest) : Except RpcError ScriptResponse :=
  match s.pkg.Address s.scheme req.Address with
  | .error err => .error (.status .InvalidArgument err.msg)
  | .ok addr =>
    let rcp := s.pkg.NewRecipientFromAddress addr
    match s.state.ScriptInfoByAccount rcp with
    | .error err => .error (.raw err)
    | .ok scriptInfo => .ok (s.pkg.ToScriptResponseProtobuf scriptInfo)

/-- The method `ResolveAlias`. -/
def ResolveAlias (s : Server) (req : String) : Except RpcError Bytes :=
  let al := s.pkg.NewAlias s.scheme req
  match s.state.AddrByAlias al with
  | .error err => .error (.status .NotFound err.msg)
  | .ok addr => .ok addr.bytes

/-! ## `GetDataEntries` -/

structure DataRequest where
  Address : Bytes
  Key : String

/-- The loop `for _, entry := range entries` of `GetDataEntries`. -/
def entriesLoop (s : Server) (req : DataRequest) (srv : Stream DataEntryResponse) :
    List DataEntry → Trace DataEntryResponse → Run DataEntryResponse
  | [], tr => ⟨tr, none⟩
  | entry :: rest, tr =>
    if entry.GetValueType = .DataDelete then
      entriesLoop s req srv rest tr
    else
      let res : DataEntryResponse := ⟨req.Address, s.pkg.EntryToProtobuf entry⟩
      match srv.Send (sent tr) res with
      | some err => ⟨tr ++ [.send res], some (.status .Internal err.msg)⟩
      | none => entriesLoop s req srv rest (tr ++ [.send res])

/-- The method `GetDataEntries`. -/
def GetDataEntries (s : Server) (req : DataRequest) (srv : Stream DataEntryResponse) :
    Run DataEntryResponse :=
  match s.pkg.Address s.scheme req.Address with
  | .error err => ⟨[], some (.status .InvalidArgument err.msg)⟩
  | .ok addr =>
    let rcp := s.pkg.NewRecipientFromAddress addr
    if req.Key ≠ "" then
      let tr1 : Trace DataEntryResponse := [.call (.RetrieveEntry rcp req.Key)]
      match s.state.RetrieveEntry rcp req.Key with
      | .error err =>
        if err.notFound then ⟨tr1, none⟩ else ⟨tr1, some (.status .NotFound err.msg)⟩
      | .ok entry =>
        if entry.GetValueType = .DataDelete then
          ⟨tr1, some (.status .NotFound "entry removed")⟩
        else
          let res : DataEntryResponse := ⟨req.Address, s.pkg.EntryToProtobuf entry⟩
          match srv.Send (sent tr1) res with
          | some err => ⟨tr1 ++ [.send res], some (.status .Internal err.msg)⟩
          | none => ⟨tr1 ++ [.send res], none⟩
    else
      let tr1 : Trace DataEntryResponse := [.call (.RetrieveEntries rcp)]
      match s.state.RetrieveEntries rcp with
      | .error err =>
        if err.notFound then ⟨tr1, none⟩ else ⟨tr1, some (.status .Internal err.msg)⟩
      | .ok entries => entriesLoop s req srv entries tr1

/-! ## `GetActiveLeases` -/

/-- The closure `filterFn` of `GetActiveLeases`.  `ok, _ := s.state.IsActiveLeasing(*t.ID)`
keeps the boolean of the answer and discards its error. -/
def filterFn (s : Server) (tx : Transaction) (tr : Trace LeaseResponse) :
    Trace LeaseResponse × Bool :=
  match tx with
  | .LeaseWithSig t =>
    (tr ++ [.call (.IsActiveLeasing t.ID)], (s.state.IsActiveLeasing t.ID).1)
  | .LeaseWithProofs t =>
    (tr ++ [.call (.IsActiveLeasing t.ID)], (s.state.IsActiveLeasing t.ID).1)
  | .Other _ => (tr, false)

/-- The tail of `getActiveLeasesHandler.handle`, after the type switch has filled
`id`, `sender`, `recipient` and `amount`. -/
def handleLease (s : Server) (srv : Stream LeaseResponse) (id : Bytes) (sender : WavesAddress)
    (recipient : Recipient) (amount : Int) (tr : Trace LeaseResponse) :
    Trace LeaseResponse × Option Error :=
  let tr1 := tr ++ [.call (.TransactionHeightByID id)]
  match s.state.TransactionHeightByID id with
  | .error err => (tr1, some (Wrap err "failed to get tx height by ID"))
  | .ok height =>
    match s.pkg.RecipientToProtobuf recipient with
    | .error err => (tr1, some err)
    | .ok rcp =>
      let res : LeaseResponse := ⟨id, id, sender.bytes, rcp, amount, int64 height⟩
      match srv.Send (sent tr1) res with
      | some err => (tr1 ++ [.send res], some (Wrap err "failed to send"))
      | none => (tr1 ++ [.send res], none)

/-- The method `getActiveLeasesHandler.handle`. -/
def handle (s : Server) (srv : Stream LeaseResponse) (tx : Transaction)
    (_status : TransactionStatus) (tr : Trace LeaseResponse) :
    Trace LeaseResponse × Option Error :=
  match tx with
  | .LeaseWithSig ltx =>
    match s.pkg.NewAddressFromPublicKey s.scheme ltx.SenderPK with
    | .error err => (tr, some err)
    | .ok sender => handleLease s srv ltx.ID.Bytes sender ltx.Recipient (int64 ltx.Amount) tr
  | .LeaseWithProofs ltx =>
    match s.pkg.NewAddressFromPublicKey s.scheme ltx.SenderPK with
    | .error err => (tr, some err)
    | .ok sender => handleLease s srv ltx.ID.Bytes sender ltx.Recipient (int64 ltx.Amount) tr
  | .Other _ => (tr, none)

/-- Modelled from the spec: `iterateAndHandleTransactions` is declared in another file
of the package.  For each transaction of the history, in order: a transaction the
filter rejects is skipped with no further effect; one it accepts is handed to the
handler, and a failure of the handler aborts the whole iteration with that error. -/
def iterateAndHandleTransactions
    (filter : Transaction → Trace LeaseResponse → Trace LeaseResponse × Bool)
    (handler : Transaction → TransactionStatus → Trace LeaseResponse →
      Trace LeaseResponse × Option Error) :
    List (Transaction × TransactionStatus) → Trace LeaseResponse →
      Trace LeaseResponse × Option Error
  | [], tr => (tr, none)
  | (tx, status) :: rest, tr =>
    match filter tx tr with
    | (tr1, false) => iterateAndHandleTransactions filter handler rest tr1
    | (tr1, true) =>
      match handler tx status tr1 with
      | (tr2, some err) => (tr2, some err)
      | (tr2, none) => iterateAndHandleTransactions filter handler rest tr2

/-- The method `GetActiveLeases`. -/
def GetActiveLeases (s : Server) (req : AccountRequest) (srv : Stream LeaseResponse) :
    Run LeaseResponse :=
  let tr0 : Trace LeaseResponse := [.call .ProvidesExtendedApi]
  match s.state.ProvidesExtendedApi with
  | .error err => ⟨tr0, some (.status .Internal err.msg)⟩
  | .ok extendedApi =>
    if !extendedApi then
      ⟨tr0, some (.status .FailedPrecondition
        "Node's state does not have information required for extended API")⟩
    else
      match s.pkg.Address s.scheme req.Address with
      | .error err => ⟨tr0, some (.status .InvalidArgument err.msg)⟩
      | .ok addr =>
        let tr1 := tr0 ++ [.call (.NewAddrTransactionsIterator addr)]
        match s.state.NewAddrTransactionsIterator addr with
        | .error err => ⟨tr1, some (.status .Internal err.msg)⟩
        | .ok none => ⟨tr1, none⟩
        | .ok (some iter) =>
          match iterateAndHandleTransactions (filterFn s) (handle s srv) iter tr1 with
          | (tr2, some err) => ⟨tr2, some (.status .Internal err.msg)⟩
          | (tr2, none) => ⟨tr2, none⟩

/-- The response the loop of `GetBalances` sends for the identifier `asset` when its
lookup succeeds: used to state what a run emitted, position by position. -/
def EmittedFor (s : Server) (rcp : Recipient) (asset : Bytes) (item : BalanceResponse) : Prop :=
  (asset.length = 0 → item = wavesResponse s rcp) ∧
  (asset.length ≠ 0 → ∃ d b, NewDigestFromBytes asset = .ok d ∧
    s.state.AssetBalance rcp (s.pkg.AssetIDFromDigest d) = .ok b ∧
    item = .Asset ⟨asset, int64 b⟩)

/-- Every identifier of `assets` is the empty marker or a well-formed digest whose
`AssetBalance` lookup succeeds. -/
def AllSucceed (s : Server) (rcp : Recipient) (assets : List Bytes) : Prop :=
  ∀ a ∈ assets, a.length ≠ 0 → ∃ d b, NewDigestFromBytes a = .ok d ∧
    s.state.AssetBalance rcp (s.pkg.AssetIDFromDigest d) = .ok b

/-! ## A concrete server

A small store and request values at which the theorems below are instantiated. -/

/-- The package functions of the concrete server: an address is 26 bytes long. -/
def demoPackages : Packages where
  Address := fun _ b => if b.length = 26 then .ok ⟨b⟩ else .error ⟨"invalid address", false⟩
  NewRecipientFromAddress := fun a => ⟨a.bytes⟩
  AssetIDFromDigest := fun d => ⟨d.bytes.take 20⟩
  WavesToProtobuf := fun w =>
    ⟨int64 w.Regular, int64 w.Generating, int64 w.Available, int64 w.Effective,
      int64 w.LeaseIn, int64 w.LeaseOut⟩
  EntryToProtobuf := fun e => ⟨e.Key, e.Value⟩
  ToScriptResponseProtobuf := fun i => ⟨i.script⟩
  NewAddressFromPublicKey := fun _ pk => .ok ⟨pk⟩
  RecipientToProtobuf := fun r => .ok r.key
  NewAlias := fun sc name => ⟨sc, name⟩

/-- A lease of the concrete history, told apart by the first byte `b` of its ID. -/
def demoLease (b : Nat) (amount : Nat) : Lease :=
  ⟨⟨List.replicate 32 b⟩, [9], ⟨[8]⟩, amount⟩

/-- The store of the concrete server.  An asset whose ID starts with byte 7 has
balance 5, every other asset is not held; a lease whose ID starts with byte 1 is
active; the account has three data entries, the middle one removed. -/
def demoState : State where
  FullWavesBalance := fun _ => .ok ⟨100, 100, 90, 90, 0, 10⟩
  AssetBalance := fun _ a =>
    if a.bytes.head? = some 7 then .ok 5 else .error ⟨"asset not found", true⟩
  ScriptInfoByAccount := fun _ => .error ⟨"script storage failure", false⟩
  ProvidesExtendedApi := .ok true
  IsActiveLeasing := fun d => (decide (d.bytes.head? = some 1), none)
  NewAddrTransactionsIterator := fun _ =>
    .ok (some [(.LeaseWithSig (demoLease 2 30), 0), (.Other 4, 0),
      (.LeaseWithProofs (demoLease 1 40), 0)])
  TransactionHeightByID := fun _ => .ok 10
  RetrieveEntry := fun _ key =>
    if key.length = 1 then .ok ⟨key, .DataInteger, [1]⟩
    else if key.length = 2 then .ok ⟨key, .DataDelete, []⟩
    else if key.length = 3 then .error ⟨"not found", true⟩
    else .error ⟨"storage failure", false⟩
  RetrieveEntries := fun _ =>
    .ok [⟨"a", .DataInteger, [1]⟩, ⟨"b", .DataDelete, []⟩, ⟨"c", .DataString, [2]⟩]
  AddrByAlias := fun _ => .error ⟨"storage failure", false⟩

def demoServer : Server := ⟨87, demoState, demoPackages⟩

/-- A well-formed address of the concrete server. -/
def demoAddress : Bytes := List.replicate 26 3

/-- The recipient of `demoAddress`. -/
def demoRecipient : Recipient := ⟨demoAddress⟩

/-- A well-formed asset identifier that the concrete account holds. -/
def heldAsset : Bytes := List.replicate 32 7

/-- A well-formed asset identifier that the concrete account does not hold. -/
def missingAsset : Bytes := List.replicate 32 6

/-- The concrete store with a liveness query that fails and still answers true. -/
def unreadableState : State :=
  { demoState with IsActiveLeasing := fun _ => (true, some ⟨"lease storage failure", false⟩) }

/-- The concrete store with a height lookup that fails with a storage fault. -/
def noHeightState : State :=
  { demoState with TransactionHeightByID := fun _ => .error ⟨"height storage failure", false⟩ }

/-- The concrete store without the extended API. -/
def lightState : State := { demoState with ProvidesExtendedApi := .ok false }

/-- The concrete store with an asset balance that has its top bit set. -/
def hugeState : State := { demoState with AssetBalance := fun _ _ => .ok (2 ^ 63) }

/-- The concrete store with an asset lookup that fails with a storage fault. -/
def faultyState : State :=
  { demoState with AssetBalance := fun _ _ => .error ⟨"storage failure", false⟩ }

/-- A stream on which every `Send` succeeds. -/
def okStream (Item : Type) : Stream Item := ⟨fun _ _ => none⟩

/-! ## Properties -/

section Traces

variable {Item : Type}

theorem sent_append (a b : Trace Item) : sent (a ++ b) = sent a ++ sent b := by
  induction a with
  | nil => rfl
  | cons e a ih => cases e <;> simp [sent, ih]

theorem calls_append (a b : Trace Item) : calls (a ++ b) = calls a ++ calls b := by
  induction a with
  | nil => rfl
  | cons e a ih => cases e <;> simp [calls, ih]

end Traces

theorem NewDigestFromBytes_ok_iff (b : Bytes) (d : Digest) :
    NewDigestFromBytes b = .ok d ↔ b.length = DigestSize ∧ d = ⟨b⟩ := by
  unfold NewDigestFromBytes
  by_cases h : b.length = DigestSize
  · simp [h, eq_comm]
  · simp [h]

theorem sendWavesBalance_ok (s : Server) (rcp : Recipient) (srv : Stream BalanceResponse)
    (hsend : ∀ h item, srv.Send h item = none) (tr : Trace BalanceResponse) :
    sendWavesBalance s rcp srv tr =
      (tr ++ [.call (.FullWavesBalance rcp), .send (wavesResponse s rcp)], none) := by
  simp [sendWavesBalance, hsend]

/-- The loop runs through a stretch of identifiers that all succeed: it issues one
lookup and sends one item for each, in order, and goes on with what follows. -/
theorem balancesLoop_append_ok (s : Server) (rcp : Recipient) (srv : Stream BalanceResponse)
    (hsend : ∀ h item, srv.Send h item = none) :
    ∀ (pre rest : List Bytes) (tr : Trace BalanceResponse), AllSucceed s rcp pre →
      ∃ evs, balancesLoop s rcp srv (pre ++ rest) tr = balancesLoop s rcp srv rest (tr ++ evs) ∧
        calls evs = pre.map (lookupFor s rcp) ∧
        List.Forall₂ (EmittedFor s rcp) pre (sent evs) := by
  intro pre
  induction pre with
  | nil =>
    intro rest tr _
    exact ⟨[], by simp, by simp [calls], by simp [sent]⟩
  | cons a pre ih =>
    intro rest tr hall
    have hpre : AllSucceed s rcp pre := fun x hx => hall x (List.mem_cons_of_mem _ hx)
    by_cases ha : a.length = 0
    · obtain ⟨evs, hrun, hcalls, hsent⟩ :=
        ih rest (tr ++ [.call (.FullWavesBalance rcp), .send (wavesResponse s rcp)]) hpre
      refine ⟨[.call (.FullWavesBalance rcp), .send (wavesResponse s rcp)] ++ evs, ?_, ?_, ?_⟩
      · rw [List.cons_append, balancesLoop, if_pos ha, sendWavesBalance_ok s rcp srv hsend]
        simpa using hrun
      · simp [calls, hcalls, lookupFor, ha]
      · simp only [List.cons_append, List.nil_append, sent]
        exact List.Forall₂.cons ⟨fun _ => rfl, fun h => absurd ha h⟩ hsent
    · obtain ⟨d, b, hd, hb⟩ := hall a (List.mem_cons_self _ _) ha
      have hd2 := (NewDigestFromBytes_ok_iff a d).1 hd
      obtain ⟨evs, hrun, hcalls, hsent⟩ :=
        ih rest (tr ++ [.call (.AssetBalance rcp (s.pkg.AssetIDFromDigest d)),
          .send (.Asset ⟨a, int64 b⟩)]) hpre
      refine ⟨[.call (.AssetBalance rcp (s.pkg.AssetIDFromDigest d)),
          .send (.Asset ⟨a, int64 b⟩)] ++ evs, ?_, ?_, ?_⟩
      · rw [List.cons_append, balancesLoop, if_neg ha]
        simp only [hd, hb, hsend]
        have hbytes : d.Bytes = a := by rw [hd2.2]; rfl
        rw [hbytes]
        simpa using hrun
      · simp [calls, hcalls, lookupFor, ha, hd2.2]
      · simp only [List.cons_append, List.nil_append, sent]
        exact List.Forall₂.cons ⟨fun h => absurd h ha, fun _ => ⟨d, b, hd, hb, rfl⟩⟩ hsent

/-- Positions of two lists related by `Forall₂` hold related elements. -/
theorem forall₂_getElem? {α β : Type} {R : α → β → Prop} {l₁ : List α} {l₂ : List β}
    (h : List.Forall₂ R l₁ l₂) :
    ∀ (k : Nat) (a : α), l₁[k]? = some a → ∃ x, l₂[k]? = some x ∧ R a x := by
  induction h with
  | nil => intro k a hk; simp at hk
  | cons hab _ ih =>
    intro k a hk
    cases k with
    | zero =>
      simp only [List.getElem?_cons_zero, Option.some.injEq] at hk
      subst hk
      exact ⟨_, by simp, hab⟩
    | succ k =>
      simp only [List.getElem?_cons_succ] at hk
      simpa using ih k a hk

/-- A run of `GetBalances` on a well-formed address and a non-empty asset list is the
run of its loop from the empty trace. -/
theorem GetBalances_eq_loop (s : Server) (req : BalancesRequest)
    (srv : Stream BalanceResponse) (addr : WavesAddress)
    (haddr : s.pkg.Address s.scheme req.Address = .ok addr) (hne : req.Assets ≠ []) :
    GetBalances s req srv =
      balancesLoop s (s.pkg.NewRecipientFromAddress addr) srv req.Assets [] := by
  have hlen : req.Assets.length ≠ 0 := by
    intro h
    exact hne (List.length_eq_zero.1 h)
  simp [GetBalances, haddr, hlen]

/-- The item at each position of a stretch of identifiers that all succeeded. -/
theorem emitted_at (s : Server) (rcp : Recipient) {pre : List Bytes}
    {l : List BalanceResponse} (h : List.Forall₂ (EmittedFor s rcp) pre l) :
    ∀ (k : Nat) (x : Bytes), pre[k]? = some x →
      (x.length = 0 → l[k]? = some (wavesResponse s rcp)) ∧
      (x.length ≠ 0 → ∃ d b, NewDigestFromBytes x = .ok d ∧
        s.state.AssetBalance rcp (s.pkg.AssetIDFromDigest d) = .ok b ∧
        l[k]? = some (BalanceResponse.Asset ⟨x, int64 b⟩)) := by
  intro k x hk
  obtain ⟨y, hy, hwaves, hasset⟩ := forall₂_getElem? h k x hk
  constructor
  · intro h0
    rw [hy, hwaves h0]
  · intro h0
    obtain ⟨d, b, hd, hb, hitem⟩ := hasset h0
    exact ⟨d, b, hd, hb, by rw [hy, hitem]⟩

/-- A run of `GetBalances` whose first identifiers `pre` all succeed reaches the next
identifier with one lookup issued and one item sent for each identifier of `pre`. -/
theorem GetBalances_after_ok_stretch (s : Server) (req : BalancesRequest)
    (srv : Stream BalanceResponse) (addr : WavesAddress) (pre : List Bytes) (a : Bytes)
    (post : List Bytes)
    (haddr : s.pkg.Address s.scheme req.Address = .ok addr)
    (hassets : req.Assets = pre ++ a :: post)
    (hpre : AllSucceed s (s.pkg.NewRecipientFromAddress addr) pre)
    (hsend : ∀ h item, srv.Send h item = none) :
    ∃ evs, GetBalances s req srv =
        balancesLoop s (s.pkg.NewRecipientFromAddress addr) srv (a :: post) evs ∧
      calls evs = pre.map (lookupFor s (s.pkg.NewRecipientFromAddress addr)) ∧
      List.Forall₂ (EmittedFor s (s.pkg.NewRecipientFromAddress addr)) pre (sent evs) := by
  obtain ⟨evs, hrun, hcalls, hsent⟩ :=
    balancesLoop_append_ok s (s.pkg.NewRecipientFromAddress addr) srv hsend pre (a :: post) [] hpre
  refine ⟨evs, ?_, hcalls, hsent⟩
  rw [GetBalances_eq_loop s req srv addr haddr (by simp [hassets]), hassets]
  simpa using hrun

/-- The loop of `GetDataEntries` on a stream whose `Send` succeeds: it sends the
entries that are not removed, in order, and returns success. -/
theorem entriesLoop_ok (s : Server) (req : DataRequest) (srv : Stream DataEntryResponse)
    (hsend : ∀ h item, srv.Send h item = none) :
    ∀ (entries : List DataEntry) (tr : Trace DataEntryResponse),
      entriesLoop s req srv entries tr =
        ⟨tr ++ ((entries.filter (fun e => decide (e.GetValueType ≠ .DataDelete))).map
          (fun e => Event.send (DataEntryResponse.mk req.Address (s.pkg.EntryToProtobuf e)))),
          none⟩ := by
  intro entries
  induction entries with
  | nil => intro tr; simp [entriesLoop]
  | cons e rest ih =>
    intro tr
    by_cases he : e.GetValueType = .DataDelete
    · rw [entriesLoop, if_pos he, ih]
      simp [he]
    · rw [entriesLoop, if_neg he]
      simp only [hsend]
      rw [ih]
      simp [he]

theorem sent_map_send {Item α : Type} (f : α → Item) (l : List α) :
    sent (l.map (fun x => Event.send (f x))) = l.map f := by
  induction l with
  | nil => rfl
  | cons x l ih => simp [sent, ih]

theorem int64_of_lt (x : Nat) (h : x < 2 ^ 63) : int64 x = (x : Int) ∧ 0 ≤ int64 x := by
  have h64 : x % 2 ^ 64 = x := Nat.mod_eq_of_lt (by omega)
  unfold int64
  rw [h64, if_pos h]
  exact ⟨rfl, Int.ofNat_nonneg x⟩

theorem int64_of_ge (x : Nat) (h : 2 ^ 63 ≤ x) (h64 : x < 2 ^ 64) :
    int64 x = (x : Int) - 2 ^ 64 ∧ int64 x < 0 := by
  have hmod : x % 2 ^ 64 = x := Nat.mod_eq_of_lt h64
  unfold int64
  rw [hmod, if_neg (by omega)]
  refine ⟨rfl, ?_⟩
  omega

/-- What `handleLease` hands to `Send` when the height lookup and the conversion of
the recipient succeed. -/
theorem handleLease_sent (s : Server) (srv : Stream LeaseResponse) (id : Bytes)
    (sender : WavesAddress) (recipient : Recipient) (amount : Int) (tr : Trace LeaseResponse)
    (height : Nat) (rcp : Bytes)
    (hheight : s.state.TransactionHeightByID id = .ok height)
    (hrcp : s.pkg.RecipientToProtobuf recipient = .ok rcp) :
    sent (handleLease s srv id sender recipient amount tr).1 =
      sent tr ++ [⟨id, id, sender.bytes, rcp, amount, int64 height⟩] := by
  unfold handleLease
  simp only [hheight, hrcp]
  cases srv.Send (sent (tr ++ [Event.call (StoreCall.TransactionHeightByID id)]))
    ⟨id, id, sender.bytes, rcp, amount, int64 height⟩ <;>
    simp [sent_append, sent]

/-- Every error of the loop of `GetDataEntries` is an `Internal` status error. -/
theorem entriesLoop_err_status (s : Server) (req : DataRequest)
    (srv : Stream DataEntryResponse) :
    ∀ (entries : List DataEntry) (tr : Trace DataEntryResponse) (e : RpcError),
      (entriesLoop s req srv entries tr).err = some e → ∃ m, e = .status .Internal m := by
  intro entries
  induction entries with
  | nil => intro tr e h; simp [entriesLoop] at h
  | cons x rest ih =>
    intro tr e h
    rw [entriesLoop] at h
    by_cases hx : x.GetValueType = .DataDelete
    · rw [if_pos hx] at h
      exact ih _ e h
    · rw [if_neg hx] at h
      cases hs : srv.Send (sent tr) ⟨req.Address, s.pkg.EntryToProtobuf x⟩ with
      | none =>
        simp only [hs] at h
        exact ih _ e h
      | some err =>
        simp only [hs, Option.some.injEq] at h
        exact ⟨err.msg, h.symm⟩

theorem filterFn_sent (s : Server) (tx : Transaction) (tr : Trace LeaseResponse) :
    sent (filterFn s tx tr).1 = sent tr := by
  cases tx <;> simp [filterFn, sent_append, sent]

/-- An item sent by `handleLease` carries the ID it was given. -/
theorem handleLease_sent_mem (s : Server) (srv : Stream LeaseResponse) (id : Bytes)
    (sender : WavesAddress) (recipient : Recipient) (amount : Int) (tr : Trace LeaseResponse)
    (item : LeaseResponse)
    (h : item ∈ sent (handleLease s srv id sender recipient amount tr).1) :
    item ∈ sent tr ∨ item.LeaseId = id := by
  unfold handleLease at h
  cases hh : s.state.TransactionHeightByID id with
  | error err =>
    simp only [hh, sent_append, sent, List.append_nil] at h
    exact Or.inl h
  | ok height =>
    simp only [hh] at h
    cases hr : s.pkg.RecipientToProtobuf recipient with
    | error err =>
      simp only [hr, sent_append, sent, List.append_nil] at h
      exact Or.inl h
    | ok rcp =>
      simp only [hr] at h
      split at h <;>
        simp only [sent_append, sent, List.append_nil, List.mem_append,
          List.mem_singleton] at h <;>
        rcases h with h | h
      · exact Or.inl h
      · exact Or.inr (by rw [h])
      · exact Or.inl h
      · exact Or.inr (by rw [h])

/-- The handler sends an item only for a lease, and the item carries the ID of that lease. -/
theorem handle_sent_mem (s : Server) (srv : Stream LeaseResponse) (tx : Transaction)
    (status : TransactionStatus) (tr : Trace LeaseResponse) (item : LeaseResponse)
    (h : item ∈ sent (handle s srv tx status tr).1) :
    item ∈ sent tr ∨
      ∃ t, (tx = .LeaseWithSig t ∨ tx = .LeaseWithProofs t) ∧ item.LeaseId = t.ID.Bytes := by
  cases tx with
  | LeaseWithSig t =>
    unfold handle at h
    cases hp : s.pkg.NewAddressFromPublicKey s.scheme t.SenderPK with
    | error err =>
      simp only [hp] at h
      exact Or.inl h
    | ok sender =>
      simp only [hp] at h
      rcases handleLease_sent_mem s srv _ _ _ _ _ item h with h1 | h1
      · exact Or.inl h1
      · exact Or.inr ⟨t, Or.inl rfl, h1⟩
  | LeaseWithProofs t =>
    unfold handle at h
    cases hp : s.pkg.NewAddressFromPublicKey s.scheme t.SenderPK with
    | error err =>
      simp only [hp] at h
      exact Or.inl h
    | ok sender =>
      simp only [hp] at h
      rcases handleLease_sent_mem s srv _ _ _ _ _ item h with h1 | h1
      · exact Or.inl h1
      · exact Or.inr ⟨t, Or.inr rfl, h1⟩
  | Other typeTag =>
    exact Or.inl h

/-- Under the iteration, every item sent comes from a lease of the history that the
filter accepted. -/
theorem iterate_sent_mem (s : Server) (srv : Stream LeaseResponse) :
    ∀ (iter : List (Transaction × TransactionStatus)) (tr : Trace LeaseResponse)
      (item : LeaseResponse),
      item ∈ sent (iterateAndHandleTransactions (filterFn s) (handle s srv) iter tr).1 →
      item ∈ sent tr ∨
        ∃ t status, ((Transaction.LeaseWithSig t, status) ∈ iter ∨
            (Transaction.LeaseWithProofs t, status) ∈ iter) ∧
          (s.state.IsActiveLeasing t.ID).1 = true ∧ item.LeaseId = t.ID.Bytes := by
  intro iter
  induction iter with
  | nil =>
    intro tr item h
    exact Or.inl h
  | cons p rest ih =>
    intro tr item h
    obtain ⟨tx, status⟩ := p
    have lift : (∃ t st, ((Transaction.LeaseWithSig t, st) ∈ rest ∨
          (Transaction.LeaseWithProofs t, st) ∈ rest) ∧
        (s.state.IsActiveLeasing t.ID).1 = true ∧ item.LeaseId = t.ID.Bytes) →
        ∃ t st, ((Transaction.LeaseWithSig t, st) ∈ (tx, status) :: rest ∨
          (Transaction.LeaseWithProofs t, st) ∈ (tx, status) :: rest) ∧
        (s.state.IsActiveLeasing t.ID).1 = true ∧ item.LeaseId = t.ID.Bytes := by
      rintro ⟨t, st, hmem, hq, hid⟩
      exact ⟨t, st, hmem.imp (List.mem_cons_of_mem _) (List.mem_cons_of_mem _), hq, hid⟩
    rw [iterateAndHandleTransactions] at h
    cases hv : (filterFn s tx tr).2 with
    | false =>
      have hp : filterFn s tx tr = ((filterFn s tx tr).1, false) := by rw [← hv]
      rw [hp] at h
      rcases ih _ item h with h1 | h1
      · rw [filterFn_sent] at h1
        exact Or.inl h1
      · exact Or.inr (lift h1)
    | true =>
      have hp : filterFn s tx tr = ((filterFn s tx tr).1, true) := by rw [← hv]
      rw [hp] at h
      dsimp only at h
      have hacc : ∀ t, (tx = .LeaseWithSig t ∨ tx = .LeaseWithProofs t) →
          (s.state.IsActiveLeasing t.ID).1 = true := by
        rintro t (rfl | rfl)
        · exact hv
        · exact hv
      have fromHandle : item ∈ sent (handle s srv tx status (filterFn s tx tr).1).1 →
          item ∈ sent tr ∨ ∃ t st, ((Transaction.LeaseWithSig t, st) ∈ (tx, status) :: rest ∨
            (Transaction.LeaseWithProofs t, st) ∈ (tx, status) :: rest) ∧
          (s.state.IsActiveLeasing t.ID).1 = true ∧ item.LeaseId = t.ID.Bytes := by
        intro hm
        rcases handle_sent_mem s srv tx status _ item hm with h1 | ⟨t, ht, hid⟩
        · rw [filterFn_sent] at h1
          exact Or.inl h1
        · refine Or.inr ⟨t, status, ?_, hacc t ht, hid⟩
          rcases ht with rfl | rfl
          · exact Or.inl (List.mem_cons_self _ _)
          · exact Or.inr (List.mem_cons_self _ _)
      cases he : (handle s srv tx status (filterFn s tx tr).1).2 with
      | some err =>
        have hq : handle s srv tx status (filterFn s tx tr).1 =
            ((handle s srv tx status (filterFn s tx tr).1).1, some err) := by rw [← he]
        rw [hq] at h
        exact fromHandle h
      | none =>
        have hq : handle s srv tx status (filterFn s tx tr).1 =
            ((handle s srv tx status (filterFn s tx tr).1).1, none) := by rw [← he]
        rw [hq] at h
        rcases ih _ item h with h1 | h1
        · exact fromHandle h1
        · exact Or.inr (lift h1)

/-- Every lease record that `GetActiveLeases` emits carries the ID of a lease of the
history whose liveness query answers true, wherever that lease sits in the history. -/
theorem GetActiveLeases_emits_only_active_leases (s : Server) (req : AccountRequest)
    (srv : Stream LeaseResponse) (item : LeaseResponse)
    (h : item ∈ sent (GetActiveLeases s req srv).trace) :
    ∃ addr iter t status, s.state.NewAddrTransactionsIterator addr = .ok (some iter) ∧
      ((Transaction.LeaseWithSig t, status) ∈ iter ∨
        (Transaction.LeaseWithProofs t, status) ∈ iter) ∧
      (s.state.IsActiveLeasing t.ID).1 = true ∧ item.LeaseId = t.ID.Bytes := by
  unfold GetActiveLeases at h
  cases hext : s.state.ProvidesExtendedApi with
  | error err => simp [hext, sent] at h
  | ok ext =>
    simp only [hext] at h
    cases ext with
    | false => simp [sent] at h
    | true =>
      simp only [Bool.not_true, Bool.false_eq_true, if_false] at h
      cases haddr : s.pkg.Address s.scheme req.Address with
      | error err => simp [haddr, sent] at h
      | ok addr =>
        simp only [haddr] at h
        cases hit : s.state.NewAddrTransactionsIterator addr with
        | error err => simp [hit, sent] at h
        | ok it =>
          simp only [hit] at h
          cases it with
          | none => simp [sent] at h
          | some iter =>
            simp only at h
            have key := iterate_sent_mem s srv iter
              ([Event.call StoreCall.ProvidesExtendedApi] ++
                [Event.call (StoreCall.NewAddrTransactionsIterator addr)]) item
            cases hr : (iterateAndHandleTransactions (filterFn s) (handle s srv) iter
              ([Event.call StoreCall.ProvidesExtendedApi] ++
                [Event.call (StoreCall.NewAddrTransactionsIterator addr)])).2 with
            | none =>
              have hp : iterateAndHandleTransactions (filterFn s) (handle s srv) iter
                  ([Event.call StoreCall.ProvidesExtendedApi] ++
                    [Event.call (StoreCall.NewAddrTransactionsIterator addr)]) =
                  ((iterateAndHandleTransactions (filterFn s) (handle s srv) iter
                    ([Event.call StoreCall.ProvidesExtendedApi] ++
                      [Event.call (StoreCall.NewAddrTransactionsIterator addr)])).1, none) := by
                rw [← hr]
              rw [hp] at h
              rcases key h with h1 | ⟨t, st, hmem, hq, hid⟩
              · simp [sent] at h1
              · exact ⟨addr, iter, t, st, hit, hmem, hq, hid⟩
            | some err =>
              have hp : iterateAndHandleTransactions (filterFn s) (handle s srv) iter
                  ([Event.call StoreCall.ProvidesExtendedApi] ++
                    [Event.call (StoreCall.NewAddrTransactionsIterator addr)]) =
                  ((iterateAndHandleTransactions (filterFn s) (handle s srv) iter
                    ([Event.call StoreCall.ProvidesExtendedApi] ++
                      [Event.call (StoreCall.NewAddrTransactionsIterator addr)])).1,
                    some err) := by
                rw [← hr]
              rw [hp] at h
              rcases key h with h1 | ⟨t, st, hmem, hq, hid⟩
              · simp [sent] at h1
              · exact ⟨addr, iter, t, st, hit, hmem, hq, hid⟩

theorem wavesResponse_ne_asset (s : Server) (rcp : Recipient) (am : Amount) :
    wavesResponse s rcp ≠ .Asset am := by
  unfold wavesResponse
  cases s.state.FullWavesBalance rcp <;> simp

/-- One step of the loop of `GetBalances` on the empty marker. -/
theorem balancesLoop_cons_waves (s : Server) (rcp : Recipient) (srv : Stream BalanceResponse)
    (a : Bytes) (rest : List Bytes) (tr : Trace BalanceResponse) (ha : a.length = 0) :
    (∀ err, srv.Send (sent tr) (wavesResponse s rcp) = some err →
      balancesLoop s rcp srv (a :: rest) tr =
        ⟨tr ++ [.call (.FullWavesBalance rcp), .send (wavesResponse s rcp)],
          some (.status .Internal err.msg)⟩) ∧
    (srv.Send (sent tr) (wavesResponse s rcp) = none →
      balancesLoop s rcp srv (a :: rest) tr =
        balancesLoop s rcp srv rest
          (tr ++ [.call (.FullWavesBalance rcp), .send (wavesResponse s rcp)])) := by
  have hs : sent (tr ++ [Event.call (StoreCall.FullWavesBalance rcp)]) = sent tr := by
    simp [sent_append, sent]
  constructor
  · intro err h
    rw [balancesLoop, if_pos ha]
    simp [sendWavesBalance, hs, h]
  · intro h
    rw [balancesLoop, if_pos ha]
    simp [sendWavesBalance, hs, h]

/-- One step of the loop of `GetBalances` on an identifier that is not empty. -/
theorem balancesLoop_cons_asset (s : Server) (rcp : Recipient) (srv : Stream BalanceResponse)
    (a : Bytes) (rest : List Bytes) (tr : Trace BalanceResponse) (ha : a.length ≠ 0) :
    (∀ err, NewDigestFromBytes a = .error err →
      balancesLoop s rcp srv (a :: rest) tr = ⟨tr, some (.status .InvalidArgument err.msg)⟩) ∧
    (∀ d err, NewDigestFromBytes a = .ok d →
      s.state.AssetBalance rcp (s.pkg.AssetIDFromDigest d) = .error err →
      balancesLoop s rcp srv (a :: rest) tr =
        ⟨tr ++ [.call (.AssetBalance rcp (s.pkg.AssetIDFromDigest d))],
          some (.status .NotFound err.msg)⟩) ∧
    (∀ d b err, NewDigestFromBytes a = .ok d →
      s.state.AssetBalance rcp (s.pkg.AssetIDFromDigest d) = .ok b →
      srv.Send (sent tr) (.Asset ⟨a, int64 b⟩) = some err →
      balancesLoop s rcp srv (a :: rest) tr =
        ⟨tr ++ [.call (.AssetBalance rcp (s.pkg.AssetIDFromDigest d)),
          .send (.Asset ⟨a, int64 b⟩)], some (.status .Internal err.msg)⟩) ∧
    (∀ d b, NewDigestFromBytes a = .ok d →
      s.state.AssetBalance rcp (s.pkg.AssetIDFromDigest d) = .ok b →
      srv.Send (sent tr) (.Asset ⟨a, int64 b⟩) = none →
      balancesLoop s rcp srv (a :: rest) tr =
        balancesLoop s rcp srv rest
          (tr ++ [.call (.AssetBalance rcp (s.pkg.AssetIDFromDigest d)),
            .send (.Asset ⟨a, int64 b⟩)])) := by
  have hs : ∀ c, sent (tr ++ [Event.call c]) = sent tr := by
    intro c
    simp [sent_append, sent]
  have hbytes : ∀ d, NewDigestFromBytes a = .ok d → d.Bytes = a := by
    intro d hd
    rw [((NewDigestFromBytes_ok_iff a d).1 hd).2]
    rfl
  refine ⟨?_, ?_, ?_, ?_⟩
  · intro err hd
    rw [balancesLoop, if_neg ha]
    simp only [hd]
  · intro d err hd hb
    rw [balancesLoop, if_neg ha]
    simp only [hd, hb]
  · intro d b err hd hb hsend
    rw [balancesLoop, if_neg ha]
    simp only [hd, hb, hs, hbytes d hd, hsend]
    simp
  · intro d b hd hb hsend
    rw [balancesLoop, if_neg ha]
    simp only [hd, hb, hs, hbytes d hd, hsend]
    simp

/-- The six ways one step of the loop of `GetBalances` can go. -/
theorem balancesLoop_step (s : Server) (rcp : Recipient) (srv : Stream BalanceResponse)
    (a : Bytes) (rest : List Bytes) (tr : Trace BalanceResponse) :
    (a.length = 0 ∧ ∃ err, srv.Send (sent tr) (wavesResponse s rcp) = some err ∧
      balancesLoop s rcp srv (a :: rest) tr =
        ⟨tr ++ [.call (.FullWavesBalance rcp), .send (wavesResponse s rcp)],
          some (.status .Internal err.msg)⟩) ∨
    (a.length = 0 ∧ srv.Send (sent tr) (wavesResponse s rcp) = none ∧
      balancesLoop s rcp srv (a :: rest) tr =
        balancesLoop s rcp srv rest
          (tr ++ [.call (.FullWavesBalance rcp), .send (wavesResponse s rcp)])) ∨
    (a.length ≠ 0 ∧ ∃ err, NewDigestFromBytes a = .error err ∧
      balancesLoop s rcp srv (a :: rest) tr = ⟨tr, some (.status .InvalidArgument err.msg)⟩) ∨
    (a.length ≠ 0 ∧ ∃ d err, NewDigestFromBytes a = .ok d ∧
      s.state.AssetBalance rcp (s.pkg.AssetIDFromDigest d) = .error err ∧
      balancesLoop s rcp srv (a :: rest) tr =
        ⟨tr ++ [.call (.AssetBalance rcp (s.pkg.AssetIDFromDigest d))],
          some (.status .NotFound err.msg)⟩) ∨
    (a.length ≠ 0 ∧ ∃ d b err, NewDigestFromBytes a = .ok d ∧
      s.state.AssetBalance rcp (s.pkg.AssetIDFromDigest d) = .ok b ∧
      srv.Send (sent tr) (.Asset ⟨a, int64 b⟩) = some err ∧
      balancesLoop s rcp srv (a :: rest) tr =
        ⟨tr ++ [.call (.AssetBalance rcp (s.pkg.AssetIDFromDigest d)),
          .send (.Asset ⟨a, int64 b⟩)], some (.status .Internal err.msg)⟩) ∨
    (a.length ≠ 0 ∧ ∃ d b, NewDigestFromBytes a = .ok d ∧
      s.state.AssetBalance rcp (s.pkg.AssetIDFromDigest d) = .ok b ∧
      srv.Send (sent tr) (.Asset ⟨a, int64 b⟩) = none ∧
      balancesLoop s rcp srv (a :: rest) tr =
        balancesLoop s rcp srv rest
          (tr ++ [.call (.AssetBalance rcp (s.pkg.AssetIDFromDigest d)),
            .send (.Asset ⟨a, int64 b⟩)])) := by
  by_cases ha : a.length = 0
  · have h := balancesLoop_cons_waves s rcp srv a rest tr ha
    cases hs : srv.Send (sent tr) (wavesResponse s rcp) with
    | some err => exact Or.inl ⟨ha, err, rfl, h.1 err hs⟩
    | none => exact Or.inr (Or.inl ⟨ha, rfl, h.2 hs⟩)
  · have h := balancesLoop_cons_asset s rcp srv a rest tr ha
    cases hd : NewDigestFromBytes a with
    | error err => exact Or.inr (Or.inr (Or.inl ⟨ha, err, rfl, h.1 err hd⟩))
    | ok d =>
      cases hb : s.state.AssetBalance rcp (s.pkg.AssetIDFromDigest d) with
      | error err =>
        exact Or.inr (Or.inr (Or.inr (Or.inl ⟨ha, d, err, rfl, hb, h.2.1 d err hd hb⟩)))
      | ok b =>
        cases hs : srv.Send (sent tr) (.Asset ⟨a, int64 b⟩) with
        | some err =>
          exact Or.inr (Or.inr (Or.inr (Or.inr (Or.inl
            ⟨ha, d, b, err, rfl, hb, hs, h.2.2.1 d b err hd hb hs⟩))))
        | none =>
          exact Or.inr (Or.inr (Or.inr (Or.inr (Or.inr
            ⟨ha, d, b, rfl, hb, hs, h.2.2.2 d b hd hb hs⟩))))

/-- The loop of `GetBalances` only adds to the trace it was started with. -/
theorem balancesLoop_trace_extends (s : Server) (rcp : Recipient)
    (srv : Stream BalanceResponse) :
    ∀ (assets : List Bytes) (tr : Trace BalanceResponse),
      ∃ more, (balancesLoop s rcp srv assets tr).trace = tr ++ more := by
  intro assets
  induction assets with
  | nil => intro tr; exact ⟨[], by simp [balancesLoop]⟩
  | cons a rest ih =>
    intro tr
    rcases balancesLoop_step s rcp srv a rest tr with
      ⟨-, err, -, hrun⟩ | ⟨-, -, hrun⟩ | ⟨-, err, -, hrun⟩ | ⟨-, d, err, -, -, hrun⟩ |
      ⟨-, d, b, err, -, -, -, hrun⟩ | ⟨-, d, b, -, -, -, hrun⟩
    · exact ⟨_, by rw [hrun]⟩
    · obtain ⟨more, hm⟩ := ih (tr ++ [.call (.FullWavesBalance rcp),
        .send (wavesResponse s rcp)])
      exact ⟨_, by rw [hrun, hm, List.append_assoc]⟩
    · exact ⟨[], by rw [hrun]; simp⟩
    · exact ⟨_, by rw [hrun]⟩
    · exact ⟨_, by rw [hrun]⟩
    · obtain ⟨more, hm⟩ := ih (tr ++ [.call (.AssetBalance rcp (s.pkg.AssetIDFromDigest d)),
        .send (.Asset ⟨a, int64 b⟩)])
      exact ⟨_, by rw [hrun, hm, List.append_assoc]⟩

/-- Every asset item the loop sends carries the bytes of an identifier of the list and
the `int64` conversion of the balance that the lookup for it returned. -/
theorem balancesLoop_sent_asset (s : Server) (rcp : Recipient)
    (srv : Stream BalanceResponse) :
    ∀ (assets : List Bytes) (tr : Trace BalanceResponse) (am : Amount),
      BalanceResponse.Asset am ∈ sent (balancesLoop s rcp srv assets tr).trace →
      BalanceResponse.Asset am ∈ sent tr ∨
        ∃ a ∈ assets, ∃ d b, NewDigestFromBytes a = .ok d ∧
          s.state.AssetBalance rcp (s.pkg.AssetIDFromDigest d) = .ok b ∧
          am = ⟨a, int64 b⟩ := by
  intro assets
  induction assets with
  | nil => intro tr am h; exact Or.inl (by simpa [balancesLoop] using h)
  | cons a rest ih =>
    intro tr am h
    have lift : (∃ x ∈ rest, ∃ d b, NewDigestFromBytes x = .ok d ∧
          s.state.AssetBalance rcp (s.pkg.AssetIDFromDigest d) = .ok b ∧
          am = ⟨x, int64 b⟩) →
        ∃ x ∈ a :: rest, ∃ d b, NewDigestFromBytes x = .ok d ∧
          s.state.AssetBalance rcp (s.pkg.AssetIDFromDigest d) = .ok b ∧
          am = ⟨x, int64 b⟩ := by
      rintro ⟨x, hx, r⟩
      exact ⟨x, List.mem_cons_of_mem _ hx, r⟩
    have hw := wavesResponse_ne_asset s rcp am
    rcases balancesLoop_step s rcp srv a rest tr with
      ⟨-, err, -, hrun⟩ | ⟨-, -, hrun⟩ | ⟨-, err, -, hrun⟩ | ⟨-, d, err, -, -, hrun⟩ |
      ⟨-, d, b, err, hd, hb, -, hrun⟩ | ⟨-, d, b, hd, hb, -, hrun⟩
    · rw [hrun] at h
      simp only [sent_append, sent, List.mem_append, List.mem_singleton] at h
      rcases h with h | h
      · exact Or.inl h
      · exact absurd h.symm hw
    · rw [hrun] at h
      rcases ih _ am h with h1 | h1
      · simp only [sent_append, sent, List.mem_append, List.mem_singleton] at h1
        rcases h1 with h1 | h1
        · exact Or.inl h1
        · exact absurd h1.symm hw
      · exact Or.inr (lift h1)
    · rw [hrun] at h
      exact Or.inl h
    · rw [hrun] at h
      simp only [sent_append, sent, List.append_nil] at h
      exact Or.inl h
    · rw [hrun] at h
      simp only [sent_append, sent, List.mem_append, List.mem_singleton,
        BalanceResponse.Asset.injEq] at h
      rcases h with h | h
      · exact Or.inl h
      · exact Or.inr ⟨a, List.mem_cons_self _ _, d, b, hd, hb, h⟩
    · rw [hrun] at h
      rcases ih _ am h with h1 | h1
      · simp only [sent_append, sent, List.mem_append, List.mem_singleton,
          BalanceResponse.Asset.injEq] at h1
        rcases h1 with h1 | h1
        · exact Or.inl h1
        · exact Or.inr ⟨a, List.mem_cons_self _ _, d, b, hd, hb, h1⟩
      · exact Or.inr (lift h1)

/-- What an `AssetBalance` lookup issued by the loop leads to: the item carrying the
`int64` conversion of its balance is sent when it succeeds, and the run returns
`NotFound` with its message when it fails. -/
theorem balancesLoop_issued_lookup (s : Server) (rcp : Recipient)
    (srv : Stream BalanceResponse) (aid : AssetID) :
    ∀ (assets : List Bytes) (tr : Trace BalanceResponse),
      StoreCall.AssetBalance rcp aid ∈ calls (balancesLoop s rcp srv assets tr).trace →
      StoreCall.AssetBalance rcp aid ∈ calls tr ∨
        (∀ b, s.state.AssetBalance rcp aid = .ok b →
          ∃ a ∈ assets, ∃ d, NewDigestFromBytes a = .ok d ∧ s.pkg.AssetIDFromDigest d = aid ∧
            BalanceResponse.Asset ⟨a, int64 b⟩ ∈
              sent (balancesLoop s rcp srv assets tr).trace) ∧
        (∀ err, s.state.AssetBalance rcp aid = .error err →
          (balancesLoop s rcp srv assets tr).err = some (.status .NotFound err.msg)) := by
  intro assets
  induction assets with
  | nil => intro tr h; exact Or.inl (by simpa [balancesLoop] using h)
  | cons a rest ih =>
    intro tr h
    have lift : ∀ tr2, balancesLoop s rcp srv (a :: rest) tr = balancesLoop s rcp srv rest tr2 →
        ((∀ b, s.state.AssetBalance rcp aid = .ok b →
          ∃ x ∈ rest, ∃ d, NewDigestFromBytes x = .ok d ∧ s.pkg.AssetIDFromDigest d = aid ∧
            BalanceResponse.Asset ⟨x, int64 b⟩ ∈
              sent (balancesLoop s rcp srv rest tr2).trace) ∧
        (∀ err, s.state.AssetBalance rcp aid = .error err →
          (balancesLoop s rcp srv rest tr2).err = some (.status .NotFound err.msg))) →
        ((∀ b, s.state.AssetBalance rcp aid = .ok b →
          ∃ x ∈ a :: rest, ∃ d, NewDigestFromBytes x = .ok d ∧
            s.pkg.AssetIDFromDigest d = aid ∧
            BalanceResponse.Asset ⟨x, int64 b⟩ ∈
              sent (balancesLoop s rcp srv (a :: rest) tr).trace) ∧
        (∀ err, s.state.AssetBalance rcp aid = .error err →
          (balancesLoop s rcp srv (a :: rest) tr).err =
            some (.status .NotFound err.msg))) := by
      intro tr2 hrun hres
      rw [hrun]
      refine ⟨fun b hb => ?_, hres.2⟩
      obtain ⟨x, hx, r⟩ := hres.1 b hb
      exact ⟨x, List.mem_cons_of_mem _ hx, r⟩
    rcases balancesLoop_step s rcp srv a rest tr with
      ⟨-, err, -, hrun⟩ | ⟨-, -, hrun⟩ | ⟨-, err, -, hrun⟩ | ⟨-, d, err, hd, hb, hrun⟩ |
      ⟨-, d, b, err, hd, hb, -, hrun⟩ | ⟨-, d, b, hd, hb, -, hrun⟩
    · rw [hrun] at h
      simp only [calls_append, calls, List.mem_append, List.mem_singleton] at h
      rcases h with h | h
      · exact Or.inl h
      · cases h
    · have h2 := h
      rw [hrun] at h2
      rcases ih _ h2 with h1 | h1
      · simp only [calls_append, calls, List.mem_append, List.mem_singleton] at h1
        rcases h1 with h1 | h1
        · exact Or.inl h1
        · cases h1
      · exact Or.inr (lift _ hrun h1)
    · rw [hrun] at h
      exact Or.inl h
    · have h2 := h
      rw [hrun] at h2
      simp only [calls_append, calls, List.mem_append, List.mem_singleton,
        StoreCall.AssetBalance.injEq, true_and] at h2
      rcases h2 with h2 | h2
      · exact Or.inl h2
      · subst h2
        refine Or.inr ⟨fun b hb2 => ?_, fun err2 he2 => ?_⟩
        · rw [hb] at hb2
          cases hb2
        · rw [hb] at he2
          cases he2
          rw [hrun]
    · have h2 := h
      rw [hrun] at h2
      simp only [calls_append, calls, List.mem_append, List.mem_singleton,
        StoreCall.AssetBalance.injEq, true_and] at h2
      rcases h2 with h2 | h2
      · exact Or.inl h2
      · subst h2
        refine Or.inr ⟨fun b2 hb2 => ?_, fun err2 he2 => ?_⟩
        · rw [hb] at hb2
          cases hb2
          refine ⟨a, List.mem_cons_self _ _, d, hd, rfl, ?_⟩
          rw [hrun]
          simp [sent_append, sent]
        · rw [hb] at he2
          cases he2
    · have h2 := h
      rw [hrun] at h2
      rcases ih _ h2 with h1 | h1
      · simp only [calls_append, calls, List.mem_append, List.mem_singleton,
          StoreCall.AssetBalance.injEq, true_and] at h1
        rcases h1 with h1 | h1
        · exact Or.inl h1
        · subst h1
          refine Or.inr ⟨fun b2 hb2 => ?_, fun err2 he2 => ?_⟩
          · rw [hb] at hb2
            cases hb2
            refine ⟨a, List.mem_cons_self _ _, d, hd, rfl, ?_⟩
            rw [hrun]
            obtain ⟨more, hm⟩ := balancesLoop_trace_extends s rcp srv rest
              (tr ++ [.call (.AssetBalance rcp (s.pkg.AssetIDFromDigest d)),
                .send (.Asset ⟨a, int64 b⟩)])
            rw [hm]
            simp [sent_append, sent]
          · rw [hb] at he2
            cases he2
      · exact Or.inr (lift _ hrun h1)

/-- Every error of the loop of `GetBalances` is a status error whose code tells what
failed: `InvalidArgument` for a malformed identifier, `NotFound` for a failed
`AssetBalance` lookup, `Internal` for the failed `Send` of the last item of the run. -/
theorem balancesLoop_err_cases (s : Server) (rcp : Recipient) (srv : Stream BalanceResponse) :
    ∀ (assets : List Bytes) (tr : Trace BalanceResponse) (e : RpcError),
      (balancesLoop s rcp srv assets tr).err = some e →
      (∃ a ∈ assets, ∃ err, NewDigestFromBytes a = .error err ∧
        e = .status .InvalidArgument err.msg) ∨
      (∃ a ∈ assets, ∃ d err, NewDigestFromBytes a = .ok d ∧
        s.state.AssetBalance rcp (s.pkg.AssetIDFromDigest d) = .error err ∧
        e = .status .NotFound err.msg) ∨
      (∃ h item err, sent (balancesLoop s rcp srv assets tr).trace = h ++ [item] ∧
        srv.Send h item = some err ∧ e = .status .Internal err.msg) := by
  intro assets
  induction assets with
  | nil => intro tr e h; simp [balancesLoop] at h
  | cons a rest ih =>
    intro tr e h
    have lift : ∀ tr2, balancesLoop s rcp srv (a :: rest) tr = balancesLoop s rcp srv rest tr2 →
        (∃ x ∈ a :: rest, ∃ err, NewDigestFromBytes x = .error err ∧
          e = .status .InvalidArgument err.msg) ∨
        (∃ x ∈ a :: rest, ∃ d err, NewDigestFromBytes x = .ok d ∧
          s.state.AssetBalance rcp (s.pkg.AssetIDFromDigest d) = .error err ∧
          e = .status .NotFound err.msg) ∨
        (∃ h item err, sent (balancesLoop s rcp srv (a :: rest) tr).trace = h ++ [item] ∧
          srv.Send h item = some err ∧ e = .status .Internal err.msg) := by
      intro tr2 hrun
      rw [hrun] at h ⊢
      rcases ih tr2 e h with ⟨x, hx, r⟩ | ⟨x, hx, r⟩ | r
      · exact Or.inl ⟨x, List.mem_cons_of_mem _ hx, r⟩
      · exact Or.inr (Or.inl ⟨x, List.mem_cons_of_mem _ hx, r⟩)
      · exact Or.inr (Or.inr r)
    rcases balancesLoop_step s rcp srv a rest tr with
      ⟨-, err, hs, hrun⟩ | ⟨-, -, hrun⟩ | ⟨-, err, hd, hrun⟩ | ⟨-, d, err, hd, hb, hrun⟩ |
      ⟨-, d, b, err, hd, hb, hs, hrun⟩ | ⟨-, d, b, hd, hb, -, hrun⟩
    · rw [hrun] at h ⊢
      simp only [Option.some.injEq] at h
      exact Or.inr (Or.inr ⟨sent tr, _, err, by simp [sent_append, sent], hs, h.symm⟩)
    · exact lift _ hrun
    · rw [hrun] at h
      simp only [Option.some.injEq] at h
      exact Or.inl ⟨a, List.mem_cons_self _ _, err, hd, h.symm⟩
    · rw [hrun] at h
      simp only [Option.some.injEq] at h
      exact Or.inr (Or.inl ⟨a, List.mem_cons_self _ _, d, err, hd, hb, h.symm⟩)
    · rw [hrun] at h ⊢
      simp only [Option.some.injEq] at h
      exact Or.inr (Or.inr ⟨sent tr, _, err, by simp [sent_append, sent], hs, h.symm⟩)
    · exact lift _ hrun

/-- Two splits of one list at a position no later in the second than in the first. -/
theorem append_cons_eq {α : Type} (l hist : List α) (w item : α) (rest more : List α)
    (h : l ++ w :: rest = hist ++ item :: more) (hle : l.length ≤ hist.length) :
    (hist = l ∧ item = w ∧ more = rest) ∨ l.length < hist.length := by
  by_cases hlen : l.length = hist.length
  · obtain ⟨h1, h2⟩ := List.append_inj h hlen
    simp only [List.cons.injEq] at h2
    exact Or.inl ⟨h1.symm, h2.1.symm, h2.2.symm⟩
  · exact Or.inr (by omega)

theorem no_split_beyond {α : Type} (l hist : List α) (item : α) (more : List α)
    (h : l = hist ++ item :: more) (hle : l.length ≤ hist.length) : False := by
  have := congrArg List.length h
  simp at this
  omega

/-- A `Send` of the loop that fails makes the run return `Internal` with its message. -/
theorem balancesLoop_send_fault (s : Server) (rcp : Recipient)
    (srv : Stream BalanceResponse) (hist : List BalanceResponse) (item : BalanceResponse)
    (more : List BalanceResponse) (err : Error)
    (hfail : srv.Send hist item = some err) :
    ∀ (assets : List Bytes) (tr : Trace BalanceResponse),
      sent (balancesLoop s rcp srv assets tr).trace = hist ++ item :: more →
      (sent tr).length ≤ hist.length →
      (balancesLoop s rcp srv assets tr).err = some (.status .Internal err.msg) := by
  intro assets
  induction assets with
  | nil =>
    intro tr h hle
    exact (no_split_beyond _ hist item more (by simpa [balancesLoop] using h) hle).elim
  | cons a rest ih =>
    intro tr h hle
    have failed : ∀ (w : BalanceResponse) (c : StoreCall) (err0 : Error),
        srv.Send (sent tr) w = some err0 →
        balancesLoop s rcp srv (a :: rest) tr =
          ⟨tr ++ [.call c, .send w], some (.status .Internal err0.msg)⟩ →
        (balancesLoop s rcp srv (a :: rest) tr).err = some (.status .Internal err.msg) := by
      intro w c err0 hs hrun
      rw [hrun] at h ⊢
      have h2 : sent tr ++ w :: [] = hist ++ item :: more := by
        simpa [sent_append, sent] using h
      rcases append_cons_eq _ _ _ _ _ _ h2 hle with ⟨h1, h3, -⟩ | hlt
      · rw [h1, h3, hs] at hfail
        cases hfail
        rfl
      · have := congrArg List.length h2
        simp at this
        omega
    have passed : ∀ (w : BalanceResponse) (c : StoreCall),
        srv.Send (sent tr) w = none →
        balancesLoop s rcp srv (a :: rest) tr =
          balancesLoop s rcp srv rest (tr ++ [.call c, .send w]) →
        (balancesLoop s rcp srv (a :: rest) tr).err = some (.status .Internal err.msg) := by
      intro w c hs hrun
      rw [hrun] at h ⊢
      obtain ⟨ext, hext⟩ := balancesLoop_trace_extends s rcp srv rest
        (tr ++ [.call c, .send w])
      have h2 : sent tr ++ w :: sent ext = hist ++ item :: more := by
        rw [hext] at h
        simpa [sent_append, sent] using h
      rcases append_cons_eq _ _ _ _ _ _ h2 hle with ⟨h1, h3, -⟩ | hlt
      · rw [h1, h3, hs] at hfail
        cases hfail
      · exact ih _ h (by simp [sent_append, sent]; omega)
    rcases balancesLoop_step s rcp srv a rest tr with
      ⟨-, err0, hs, hrun⟩ | ⟨-, hs, hrun⟩ | ⟨-, err0, -, hrun⟩ | ⟨-, d, err0, -, -, hrun⟩ |
      ⟨-, d, b, err0, -, -, hs, hrun⟩ | ⟨-, d, b, -, -, hs, hrun⟩
    · exact failed _ _ err0 hs hrun
    · exact passed _ _ hs hrun
    · rw [hrun] at h
      exact (no_split_beyond _ hist item more h hle).elim
    · rw [hrun] at h
      exact (no_split_beyond _ hist item more (by simpa [sent_append, sent] using h) hle).elim
    · exact failed _ _ err0 hs hrun
    · exact passed _ _ hs hrun

/-- A run of `GetBalances` on a well-formed address and an empty asset list: one lookup
of the native balance and one `Send`, whose failure is the only possible error. -/
theorem GetBalances_nil (s : Server) (req : BalancesRequest)
    (srv : Stream BalanceResponse) (addr : WavesAddress)
    (haddr : s.pkg.Address s.scheme req.Address = .ok addr) (hassets : req.Assets = []) :
    (GetBalances s req srv).trace =
      [.call (.FullWavesBalance (s.pkg.NewRecipientFromAddress addr)),
        .send (wavesResponse s (s.pkg.NewRecipientFromAddress addr))] ∧
    ((srv.Send [] (wavesResponse s (s.pkg.NewRecipientFromAddress addr)) = none ∧
        (GetBalances s req srv).err = none) ∨
      ∃ err, srv.Send [] (wavesResponse s (s.pkg.NewRecipientFromAddress addr)) = some err ∧
        (GetBalances s req srv).err = some (.status .Internal err.msg)) := by
  cases hs : srv.Send [] (wavesResponse s (s.pkg.NewRecipientFromAddress addr)) with
  | none =>
    have hrun : GetBalances s req srv =
        ⟨[.call (.FullWavesBalance (s.pkg.NewRecipientFromAddress addr)),
          .send (wavesResponse s (s.pkg.NewRecipientFromAddress addr))], none⟩ := by
      simp [GetBalances, haddr, hassets, sendWavesBalance, sent, hs, balancesLoop]
    rw [hrun]
    exact ⟨rfl, Or.inl ⟨rfl, rfl⟩⟩
  | some err =>
    have hrun : GetBalances s req srv =
        ⟨[.call (.FullWavesBalance (s.pkg.NewRecipientFromAddress addr)),
          .send (wavesResponse s (s.pkg.NewRecipientFromAddress addr))],
          some (.status .Internal err.msg)⟩ := by
      simp [GetBalances, haddr, hassets, sendWavesBalance, sent, hs]
    rw [hrun]
    exact ⟨rfl, Or.inr ⟨err, rfl, rfl⟩⟩

/-- Every asset item that `GetBalances` sends carries the bytes of an identifier of the
request and the `int64` conversion of the balance that the lookup for it returned. -/
theorem GetBalances_sent_asset (s : Server) (req : BalancesRequest)
    (srv : Stream BalanceResponse) (am : Amount)
    (h : BalanceResponse.Asset am ∈ sent (GetBalances s req srv).trace) :
    ∃ addr, s.pkg.Address s.scheme req.Address = .ok addr ∧
      ∃ a ∈ req.Assets, ∃ d b, NewDigestFromBytes a = .ok d ∧
        s.state.AssetBalance (s.pkg.NewRecipientFromAddress addr)
          (s.pkg.AssetIDFromDigest d) = .ok b ∧
        am = ⟨a, int64 b⟩ := by
  cases haddr : s.pkg.Address s.scheme req.Address with
  | error err => simp [GetBalances, haddr, sent] at h
  | ok addr =>
    refine ⟨addr, rfl, ?_⟩
    by_cases hne : req.Assets = []
    · rw [(GetBalances_nil s req srv addr haddr hne).1] at h
      simp only [sent, List.mem_singleton] at h
      exact absurd h.symm (wavesResponse_ne_asset s _ am)
    · rw [GetBalances_eq_loop s req srv addr haddr hne] at h
      rcases balancesLoop_sent_asset s _ srv _ _ am h with h1 | h1
      · simp [sent] at h1
      · exact h1

/-- What an `AssetBalance` lookup issued by `GetBalances` leads to. -/
theorem GetBalances_issued_lookup (s : Server) (req : BalancesRequest)
    (srv : Stream BalanceResponse) (addr : WavesAddress) (aid : AssetID)
    (haddr : s.pkg.Address s.scheme req.Address = .ok addr)
    (h : StoreCall.AssetBalance (s.pkg.NewRecipientFromAddress addr) aid ∈
      calls (GetBalances s req srv).trace) :
    (∀ b, s.state.AssetBalance (s.pkg.NewRecipientFromAddress addr) aid = .ok b →
      ∃ a ∈ req.Assets, ∃ d, NewDigestFromBytes a = .ok d ∧ s.pkg.AssetIDFromDigest d = aid ∧
        BalanceResponse.Asset ⟨a, int64 b⟩ ∈ sent (GetBalances s req srv).trace) ∧
    (∀ err, s.state.AssetBalance (s.pkg.NewRecipientFromAddress addr) aid = .error err →
      (GetBalances s req srv).err = some (.status .NotFound err.msg)) := by
  by_cases hne : req.Assets = []
  · rw [(GetBalances_nil s req srv addr haddr hne).1] at h
    simp [calls] at h
  · rw [GetBalances_eq_loop s req srv addr haddr hne] at h ⊢
    rcases balancesLoop_issued_lookup s _ srv aid _ _ h with h1 | h1
    · simp [calls] at h1
    · exact h1

theorem filterFn_calls_height (s : Server) (tx : Transaction) (tr : Trace LeaseResponse)
    (id : Bytes) :
    StoreCall.TransactionHeightByID id ∈ calls (filterFn s tx tr).1 ↔
      StoreCall.TransactionHeightByID id ∈ calls tr := by
  cases tx <;> simp [filterFn, calls_append, calls]

/-- A height lookup that fails makes `handleLease` return an error. -/
theorem handleLease_height_fault (s : Server) (srv : Stream LeaseResponse) (id0 : Bytes)
    (sender : WavesAddress) (recipient : Recipient) (amount : Int) (tr : Trace LeaseResponse)
    (id : Bytes) (e : Error)
    (hstore : s.state.TransactionHeightByID id = .error e)
    (h : StoreCall.TransactionHeightByID id ∈
      calls (handleLease s srv id0 sender recipient amount tr).1) :
    StoreCall.TransactionHeightByID id ∈ calls tr ∨
      ∃ err, (handleLease s srv id0 sender recipient amount tr).2 = some err := by
  unfold handleLease at h ⊢
  cases hh : s.state.TransactionHeightByID id0 with
  | error err => exact Or.inr ⟨_, rfl⟩
  | ok height =>
    have hne : id ≠ id0 := by
      intro hid
      rw [hid, hh] at hstore
      cases hstore
    simp only [hh] at h
    cases hr : s.pkg.RecipientToProtobuf recipient with
    | error err => exact Or.inr ⟨_, rfl⟩
    | ok rcp =>
      simp only [hr] at h
      left
      split at h <;>
        simpa [calls_append, calls, hne] using h

/-- A height lookup that fails makes the handler return an error. -/
theorem handle_height_fault (s : Server) (srv : Stream LeaseResponse) (tx : Transaction)
    (status : TransactionStatus) (tr : Trace LeaseResponse) (id : Bytes) (e : Error)
    (hstore : s.state.TransactionHeightByID id = .error e)
    (h : StoreCall.TransactionHeightByID id ∈ calls (handle s srv tx status tr).1) :
    StoreCall.TransactionHeightByID id ∈ calls tr ∨
      ∃ err, (handle s srv tx status tr).2 = some err := by
  cases tx with
  | LeaseWithSig t =>
    unfold handle at h ⊢
    cases hp : s.pkg.NewAddressFromPublicKey s.scheme t.SenderPK with
    | error err =>
      simp only [hp]
      exact Or.inr ⟨_, rfl⟩
    | ok sender =>
      simp only [hp] at h ⊢
      exact handleLease_height_fault s srv _ _ _ _ _ id e hstore h
  | LeaseWithProofs t =>
    unfold handle at h ⊢
    cases hp : s.pkg.NewAddressFromPublicKey s.scheme t.SenderPK with
    | error err =>
      simp only [hp]
      exact Or.inr ⟨_, rfl⟩
    | ok sender =>
      simp only [hp] at h ⊢
      exact handleLease_height_fault s srv _ _ _ _ _ id e hstore h
  | Other typeTag => exact Or.inl h

/-- A height lookup that fails makes the iteration return an error. -/
theorem iterate_height_fault (s : Server) (srv : Stream LeaseResponse) (id : Bytes)
    (e : Error) (hstore : s.state.TransactionHeightByID id = .error e) :
    ∀ (iter : List (Transaction × TransactionStatus)) (tr : Trace LeaseResponse),
      StoreCall.TransactionHeightByID id ∈
        calls (iterateAndHandleTransactions (filterFn s) (handle s srv) iter tr).1 →
      StoreCall.TransactionHeightByID id ∈ calls tr ∨
        ∃ err, (iterateAndHandleTransactions (filterFn s) (handle s srv) iter tr).2 =
          some err := by
  intro iter
  induction iter with
  | nil => intro tr h; exact Or.inl h
  | cons p rest ih =>
    intro tr h
    obtain ⟨tx, status⟩ := p
    rw [iterateAndHandleTransactions] at h ⊢
    cases hv : (filterFn s tx tr).2 with
    | false =>
      have hp : filterFn s tx tr = ((filterFn s tx tr).1, false) := by rw [← hv]
      rw [hp] at h ⊢
      rcases ih _ h with h1 | h1
      · exact Or.inl ((filterFn_calls_height s tx tr id).1 h1)
      · exact Or.inr h1
    | true =>
      have hp : filterFn s tx tr = ((filterFn s tx tr).1, true) := by rw [← hv]
      rw [hp] at h ⊢
      dsimp only at h ⊢
      cases he : (handle s srv tx status (filterFn s tx tr).1).2 with
      | some err =>
        have hq : handle s srv tx status (filterFn s tx tr).1 =
            ((handle s srv tx status (filterFn s tx tr).1).1, some err) := by rw [← he]
        rw [hq]
        exact Or.inr ⟨err, rfl⟩
      | none =>
        have hq : handle s srv tx status (filterFn s tx tr).1 =
            ((handle s srv tx status (filterFn s tx tr).1).1, none) := by rw [← he]
        rw [hq] at h ⊢
        rcases ih _ h with h1 | h1
        · rcases handle_height_fault s srv tx status _ id e hstore h1 with h2 | ⟨err, h2⟩
          · exact Or.inl ((filterFn_calls_height s tx tr id).1 h2)
          · rw [he] at h2
            cases h2
        · exact Or.inr h1

/-- A height lookup that `GetActiveLeases` issues and that fails makes the call return
`Internal`. -/
theorem GetActiveLeases_height_fault (s : Server) (req : AccountRequest)
    (srv : Stream LeaseResponse) (id : Bytes) (e : Error)
    (hstore : s.state.TransactionHeightByID id = .error e)
    (h : StoreCall.TransactionHeightByID id ∈ calls (GetActiveLeases s req srv).trace) :
    ∃ m, (GetActiveLeases s req srv).err = some (.status .Internal m) := by
  unfold GetActiveLeases at h ⊢
  cases hext : s.state.ProvidesExtendedApi with
  | error err => simp [hext, calls] at h
  | ok ext =>
    simp only [hext] at h ⊢
    cases ext with
    | false => simp [calls] at h
    | true =>
      simp only [Bool.not_true, Bool.false_eq_true, if_false] at h ⊢
      cases haddr : s.pkg.Address s.scheme req.Address with
      | error err => simp [haddr, calls] at h
      | ok addr =>
        simp only [haddr] at h ⊢
        cases hit : s.state.NewAddrTransactionsIterator addr with
        | error err => simp [hit, calls] at h
        | ok it =>
          simp only [hit] at h ⊢
          cases it with
          | none => simp [calls] at h
          | some iter =>
            simp only at h ⊢
            have key := iterate_height_fault s srv id e hstore iter
              ([Event.call StoreCall.ProvidesExtendedApi] ++
                [Event.call (StoreCall.NewAddrTransactionsIterator addr)])
            generalize iterateAndHandleTransactions (filterFn s) (handle s srv) iter
              ([Event.call StoreCall.ProvidesExtendedApi] ++
                [Event.call (StoreCall.NewAddrTransactionsIterator addr)]) = r at h key ⊢
            obtain ⟨tr2, oe⟩ := r
            cases oe with
            | some err => exact ⟨err.msg, rfl⟩
            | none =>
              rcases key h with h1 | ⟨err, h1⟩
              · simp [calls] at h1
              · cases h1

/-! ### `GetBalances` -/

/-- C3. A request with a well-formed address and an empty asset list, on a stream whose
`Send` succeeds, returns success and emits exactly one item, a native-currency balance:
the converted `FullWavesBalance` when that lookup succeeds, the zero record when it fails. -/
theorem GetBalances_empty_assets (s : Server) (req : BalancesRequest)
    (srv : Stream BalanceResponse) (addr : WavesAddress)
    (haddr : s.pkg.Address s.scheme req.Address = .ok addr)
    (hassets : req.Assets = [])
    (hsend : ∀ h item, srv.Send h item = none) :
    (GetBalances s req srv).err = none ∧
    (∀ info, s.state.FullWavesBalance (s.pkg.NewRecipientFromAddress addr) = .ok info →
      sent (GetBalances s req srv).trace = [.Waves (s.pkg.WavesToProtobuf info)]) ∧
    (∀ e, s.state.FullWavesBalance (s.pkg.NewRecipientFromAddress addr) = .error e →
      sent (GetBalances s req srv).trace = [.Waves WavesBalances.zero]) := by
  have hrun : GetBalances s req srv =
      ⟨[.call (.FullWavesBalance (s.pkg.NewRecipientFromAddress addr)),
        .send (wavesResponse s (s.pkg.NewRecipientFromAddress addr))], none⟩ := by
    simp [GetBalances, haddr, hassets, sendWavesBalance_ok s _ srv hsend, balancesLoop]
  rw [hrun]
  refine ⟨rfl, ?_, ?_⟩
  · intro info h
    simp [sent, wavesResponse, h]
  · intro e h
    simp [sent, wavesResponse, h]

theorem GetBalances_empty_assets_witness :
    demoServer.pkg.Address demoServer.scheme demoAddress = .ok ⟨demoAddress⟩ ∧
    (GetBalances demoServer ⟨demoAddress, []⟩ (okStream BalanceResponse)).err = none ∧
    sent (GetBalances demoServer ⟨demoAddress, []⟩ (okStream BalanceResponse)).trace =
      [.Waves ⟨100, 100, 90, 90, 0, 10⟩] := by
  have haddr : demoServer.pkg.Address demoServer.scheme demoAddress = .ok ⟨demoAddress⟩ := by
    simp [demoServer, demoPackages, demoAddress]
  have h := GetBalances_empty_assets demoServer ⟨demoAddress, []⟩ (okStream BalanceResponse)
    ⟨demoAddress⟩ haddr rfl (fun _ _ => rfl)
  refine ⟨haddr, h.1, ?_⟩
  rw [h.2.1 ⟨100, 100, 90, 90, 0, 10⟩ rfl]
  simp [demoServer, demoPackages, int64]

/-- C2, counterexample.  Every lookup and every `Send` of the request succeeds and the
store returns the balance `2 ^ 63` for the second identifier; the item at that position
carries `-2 ^ 63`, which is not the amount the store returned. -/
theorem GetBalances_store_amount_counterexample :
    hugeState.AssetBalance demoRecipient ⟨List.replicate 20 7⟩ = .ok (2 ^ 63) ∧
    (GetBalances ⟨87, hugeState, demoPackages⟩ ⟨demoAddress, [[], heldAsset]⟩
      (okStream BalanceResponse)).err = none ∧
    (sent (GetBalances ⟨87, hugeState, demoPackages⟩ ⟨demoAddress, [[], heldAsset]⟩
      (okStream BalanceResponse)).trace)[1]? =
      some (.Asset ⟨heldAsset, -9223372036854775808⟩) ∧
    (-9223372036854775808 : Int) ≠ ((2 ^ 63 : Nat) : Int) := by
  refine ⟨rfl, ?_, ?_, by norm_num⟩
  all_goals
    simp [GetBalances, balancesLoop, sendWavesBalance, hugeState, demoPackages, demoAddress,
      heldAsset, okStream, NewDigestFromBytes, DigestSize, sent, sent_append,
      Digest.Bytes, int64, List.replicate]

/-- C2, amended.  On a well-formed address and a non-empty asset list whose non-empty
identifiers are well-formed digests, when every asset lookup and every `Send` succeeds,
`GetBalances` returns success and emits as many items as there are identifiers; the item
at position `k` is the native-currency balance when the identifier at `k` is empty, and
otherwise the asset balance carrying the bytes of that identifier and the `int64`
conversion of the amount `b` the store returned for it: `b` itself when `b < 2 ^ 63`,
and `b - 2 ^ 64` when `2 ^ 63 ≤ b < 2 ^ 64`. -/
theorem GetBalances_maps_assets_in_order (s : Server) (req : BalancesRequest)
    (srv : Stream BalanceResponse) (addr : WavesAddress)
    (haddr : s.pkg.Address s.scheme req.Address = .ok addr)
    (hne : req.Assets ≠ [])
    (hdigest : ∀ a ∈ req.Assets, a.length ≠ 0 → ∃ d, NewDigestFromBytes a = .ok d)
    (hlookup : ∀ a ∈ req.Assets, ∀ d, NewDigestFromBytes a = .ok d →
      ∃ b, s.state.AssetBalance (s.pkg.NewRecipientFromAddress addr)
        (s.pkg.AssetIDFromDigest d) = .ok b)
    (hsend : ∀ h item, srv.Send h item = none) :
    (GetBalances s req srv).err = none ∧
    (sent (GetBalances s req srv).trace).length = req.Assets.length ∧
    ∀ (k : Nat) (a : Bytes), req.Assets[k]? = some a →
      (a.length = 0 → ∃ w,
        (sent (GetBalances s req srv).trace)[k]? = some (BalanceResponse.Waves w) ∧
        BalanceResponse.Waves w = wavesResponse s (s.pkg.NewRecipientFromAddress addr)) ∧
      (a.length ≠ 0 → ∃ d b, NewDigestFromBytes a = .ok d ∧
        s.state.AssetBalance (s.pkg.NewRecipientFromAddress addr)
          (s.pkg.AssetIDFromDigest d) = .ok b ∧
        (sent (GetBalances s req srv).trace)[k]? =
          some (BalanceResponse.Asset ⟨a, int64 b⟩) ∧
        (b < 2 ^ 63 → int64 b = (b : Int)) ∧
        (2 ^ 63 ≤ b → b < 2 ^ 64 → int64 b = (b : Int) - 2 ^ 64)) := by
  have hall : AllSucceed s (s.pkg.NewRecipientFromAddress addr) req.Assets := by
    intro a ha hlen
    obtain ⟨d, hd⟩ := hdigest a ha hlen
    obtain ⟨b, hb⟩ := hlookup a ha d hd
    exact ⟨d, b, hd, hb⟩
  obtain ⟨evs, hrun, -, hsent⟩ :=
    balancesLoop_append_ok s (s.pkg.NewRecipientFromAddress addr) srv hsend req.Assets [] [] hall
  have hrun2 : GetBalances s req srv = ⟨evs, none⟩ := by
    rw [GetBalances_eq_loop s req srv addr haddr hne]
    simpa [balancesLoop] using hrun
  rw [hrun2]
  refine ⟨rfl, hsent.length_eq.symm, ?_⟩
  intro k a hk
  obtain ⟨x, hx, hwaves, hasset⟩ := forall₂_getElem? hsent k a hk
  constructor
  · intro h0
    have hw : x = wavesResponse s (s.pkg.NewRecipientFromAddress addr) := hwaves h0
    cases hfw : s.state.FullWavesBalance (s.pkg.NewRecipientFromAddress addr) with
    | error e =>
      refine ⟨WavesBalances.zero, ?_, ?_⟩
      · rw [hx, hw]; simp [wavesResponse, hfw]
      · simp [wavesResponse, hfw]
    | ok info =>
      refine ⟨s.pkg.WavesToProtobuf info, ?_, ?_⟩
      · rw [hx, hw]; simp [wavesResponse, hfw]
      · simp [wavesResponse, hfw]
  · intro h0
    obtain ⟨d, b, hd, hb, hitem⟩ := hasset h0
    exact ⟨d, b, hd, hb, by rw [hx, hitem], fun h => (int64_of_lt b h).1,
      fun h1 h2 => (int64_of_ge b h1 h2).1⟩

theorem GetBalances_maps_assets_in_order_witness :
    (GetBalances demoServer ⟨demoAddress, [[], heldAsset]⟩ (okStream BalanceResponse)).err = none ∧
    (sent (GetBalances demoServer ⟨demoAddress, [[], heldAsset]⟩
      (okStream BalanceResponse)).trace).length = 2 := by
  have haddr : demoServer.pkg.Address demoServer.scheme demoAddress = .ok ⟨demoAddress⟩ := by
    simp [demoServer, demoPackages, demoAddress]
  have hd : NewDigestFromBytes heldAsset = .ok ⟨heldAsset⟩ := by
    simp [NewDigestFromBytes, DigestSize, heldAsset]
  have hnil : ∀ d, NewDigestFromBytes [] ≠ .ok d := by
    intro d; simp [NewDigestFromBytes, DigestSize]
  have h := GetBalances_maps_assets_in_order demoServer ⟨demoAddress, [[], heldAsset]⟩
    (okStream BalanceResponse) ⟨demoAddress⟩ haddr (by simp)
    (by
      intro a ha hlen
      simp only [List.mem_cons, List.mem_singleton, List.not_mem_nil, or_false] at ha
      rcases ha with rfl | rfl
      · simp at hlen
      · exact ⟨_, hd⟩)
    (by
      intro a ha d hda
      simp only [List.mem_cons, List.mem_singleton, List.not_mem_nil, or_false] at ha
      rcases ha with rfl | rfl
      · exact absurd hda (hnil d)
      · rw [hd] at hda
        cases hda
        exact ⟨5, by simp [demoServer, demoState, demoPackages, heldAsset, List.replicate]⟩)
    (fun _ _ => rfl)
  exact ⟨h.1, h.2.1⟩

/-- C1. `GetBalances` is fail-fast on assets.  Let the asset list be `pre ++ a :: post`
on a well-formed address, where every identifier of `pre` is empty or a well-formed
digest whose lookup succeeds, `a` is a non-empty well-formed digest whose `AssetBalance`
lookup fails with `e` (so `a` sits at the first failing index `pre.length`), and every
`Send` succeeds.  Then the call returns `NotFound`, the items emitted are exactly the
items of `pre`, position by position, and the store lookups issued are exactly those of
`pre` followed by the one of `a`: none is issued for `post`, whatever it holds. -/
theorem GetBalances_fails_fast (s : Server) (req : BalancesRequest)
    (srv : Stream BalanceResponse) (addr : WavesAddress) (pre : List Bytes) (a : Bytes)
    (post : List Bytes) (d : Digest) (e : Error)
    (haddr : s.pkg.Address s.scheme req.Address = .ok addr)
    (hassets : req.Assets = pre ++ a :: post)
    (hpre : ∀ x ∈ pre, x.length ≠ 0 → ∃ dx b, NewDigestFromBytes x = .ok dx ∧
      s.state.AssetBalance (s.pkg.NewRecipientFromAddress addr)
        (s.pkg.AssetIDFromDigest dx) = .ok b)
    (ha : a.length ≠ 0)
    (hd : NewDigestFromBytes a = .ok d)
    (hfail : s.state.AssetBalance (s.pkg.NewRecipientFromAddress addr)
      (s.pkg.AssetIDFromDigest d) = .error e)
    (hsend : ∀ h item, srv.Send h item = none) :
    (GetBalances s req srv).err = some (.status .NotFound e.msg) ∧
    (sent (GetBalances s req srv).trace).length = pre.length ∧
    (∀ (k : Nat) (x : Bytes), pre[k]? = some x →
      (x.length = 0 → (sent (GetBalances s req srv).trace)[k]? =
        some (wavesResponse s (s.pkg.NewRecipientFromAddress addr))) ∧
      (x.length ≠ 0 → ∃ dx b, NewDigestFromBytes x = .ok dx ∧
        s.state.AssetBalance (s.pkg.NewRecipientFromAddress addr)
          (s.pkg.AssetIDFromDigest dx) = .ok b ∧
        (sent (GetBalances s req srv).trace)[k]? =
          some (BalanceResponse.Asset ⟨x, int64 b⟩))) ∧
    calls (GetBalances s req srv).trace =
      (pre ++ [a]).map (lookupFor s (s.pkg.NewRecipientFromAddress addr)) := by
  obtain ⟨evs, hrun, hcalls, hsent⟩ :=
    GetBalances_after_ok_stretch s req srv addr pre a post haddr hassets hpre hsend
  have hd2 := (NewDigestFromBytes_ok_iff a d).1 hd
  have hrun2 : GetBalances s req srv =
      ⟨evs ++ [.call (.AssetBalance (s.pkg.NewRecipientFromAddress addr)
        (s.pkg.AssetIDFromDigest d))], some (.status .NotFound e.msg)⟩ := by
    rw [hrun, balancesLoop, if_neg ha]
    simp only [hd, hfail]
  rw [hrun2]
  refine ⟨rfl, ?_, ?_, ?_⟩
  · simp [sent_append, sent, hsent.length_eq.symm]
  · have hs : sent (evs ++ [Event.call (StoreCall.AssetBalance
        (s.pkg.NewRecipientFromAddress addr) (s.pkg.AssetIDFromDigest d))]) = sent evs := by
      simp [sent_append, sent]
    simp only [hs]
    exact emitted_at s _ hsent
  · simp [calls_append, calls, hcalls, lookupFor, ha, hd2.2]

theorem GetBalances_fails_fast_witness :
    (GetBalances demoServer ⟨demoAddress, [[], heldAsset, missingAsset, heldAsset]⟩
      (okStream BalanceResponse)).err = some (.status .NotFound "asset not found") ∧
    (sent (GetBalances demoServer ⟨demoAddress, [[], heldAsset, missingAsset, heldAsset]⟩
      (okStream BalanceResponse)).trace).length = 2 := by
  have haddr : demoServer.pkg.Address demoServer.scheme demoAddress = .ok ⟨demoAddress⟩ := by
    simp [demoServer, demoPackages, demoAddress]
  have hheld : NewDigestFromBytes heldAsset = .ok ⟨heldAsset⟩ := by
    simp [NewDigestFromBytes, DigestSize, heldAsset]
  have hmissing : NewDigestFromBytes missingAsset = .ok ⟨missingAsset⟩ := by
    simp [NewDigestFromBytes, DigestSize, missingAsset]
  have h := GetBalances_fails_fast demoServer
    ⟨demoAddress, [[], heldAsset, missingAsset, heldAsset]⟩ (okStream BalanceResponse)
    ⟨demoAddress⟩ [[], heldAsset] missingAsset [heldAsset] ⟨missingAsset⟩
    ⟨"asset not found", true⟩ haddr rfl
    (by
      intro x hx hlen
      simp only [List.mem_cons, List.mem_singleton, List.not_mem_nil, or_false] at hx
      rcases hx with rfl | rfl
      · simp at hlen
      · exact ⟨_, 5, hheld,
          by simp [demoServer, demoState, demoPackages, heldAsset, List.replicate]⟩)
    (by simp [missingAsset])
    hmissing
    (by simp [demoServer, demoState, demoPackages, missingAsset, List.replicate])
    (fun _ _ => rfl)
  exact ⟨h.1, h.2.1⟩

/-- C9, counterexample.  The request holds the malformed identifier `[1]` after a held
asset: the call does return `InvalidArgument`, but only after it has issued the lookup
for the first identifier and emitted its item. -/
theorem GetBalances_malformed_asset_counterexample :
    (∀ d, NewDigestFromBytes [1] ≠ .ok d) ∧
    (GetBalances demoServer ⟨demoAddress, [heldAsset, [1]]⟩ (okStream BalanceResponse)).err =
      some (.status .InvalidArgument "invalid digest len") ∧
    sent (GetBalances demoServer ⟨demoAddress, [heldAsset, [1]]⟩
      (okStream BalanceResponse)).trace = [.Asset ⟨heldAsset, 5⟩] ∧
    calls (GetBalances demoServer ⟨demoAddress, [heldAsset, [1]]⟩
      (okStream BalanceResponse)).trace =
      [.AssetBalance demoRecipient ⟨List.replicate 20 7⟩] := by
  refine ⟨?_, ?_, ?_, ?_⟩
  · intro d
    simp [NewDigestFromBytes, DigestSize]
  all_goals
    simp [GetBalances, balancesLoop, demoServer, demoPackages, demoState, demoAddress,
      demoRecipient, heldAsset, okStream, NewDigestFromBytes, DigestSize, sent, calls,
      Digest.Bytes, int64, List.replicate]

/-- C9, amended.  A malformed address is rejected with `InvalidArgument` before anything
else happens: no item, no store lookup.  Asset identifiers are validated one at a time
inside the loop: when the list is `pre ++ a :: post`, every identifier of `pre` succeeds,
`a` is non-empty and not a well-formed digest, and every `Send` succeeds, the call
returns `InvalidArgument` after emitting the items of `pre` and issuing their lookups,
and issues no lookup for `a` or for `post`. -/
theorem GetBalances_rejects_malformed (s : Server) (req : BalancesRequest)
    (srv : Stream BalanceResponse) :
    (∀ e, s.pkg.Address s.scheme req.Address = .error e →
      GetBalances s req srv = ⟨[], some (.status .InvalidArgument e.msg)⟩) ∧
    (∀ (addr : WavesAddress) (pre : List Bytes) (a : Bytes) (post : List Bytes) (e : Error),
      s.pkg.Address s.scheme req.Address = .ok addr →
      req.Assets = pre ++ a :: post →
      (∀ x ∈ pre, x.length ≠ 0 → ∃ dx b, NewDigestFromBytes x = .ok dx ∧
        s.state.AssetBalance (s.pkg.NewRecipientFromAddress addr)
          (s.pkg.AssetIDFromDigest dx) = .ok b) →
      a.length ≠ 0 →
      NewDigestFromBytes a = .error e →
      (∀ h item, srv.Send h item = none) →
      (GetBalances s req srv).err = some (.status .InvalidArgument e.msg) ∧
      (sent (GetBalances s req srv).trace).length = pre.length ∧
      (∀ (k : Nat) (x : Bytes), pre[k]? = some x →
        (x.length = 0 → (sent (GetBalances s req srv).trace)[k]? =
          some (wavesResponse s (s.pkg.NewRecipientFromAddress addr))) ∧
        (x.length ≠ 0 → ∃ dx b, NewDigestFromBytes x = .ok dx ∧
          s.state.AssetBalance (s.pkg.NewRecipientFromAddress addr)
            (s.pkg.AssetIDFromDigest dx) = .ok b ∧
          (sent (GetBalances s req srv).trace)[k]? =
            some (BalanceResponse.Asset ⟨x, int64 b⟩))) ∧
      calls (GetBalances s req srv).trace =
        pre.map (lookupFor s (s.pkg.NewRecipientFromAddress addr))) := by
  constructor
  · intro e he
    simp [GetBalances, he]
  · intro addr pre a post e haddr hassets hpre ha hbad hsend
    obtain ⟨evs, hrun, hcalls, hsent⟩ :=
      GetBalances_after_ok_stretch s req srv addr pre a post haddr hassets hpre hsend
    have hrun2 : GetBalances s req srv = ⟨evs, some (.status .InvalidArgument e.msg)⟩ := by
      rw [hrun, balancesLoop, if_neg ha]
      simp only [hbad]
    rw [hrun2]
    exact ⟨rfl, hsent.length_eq.symm, emitted_at s _ hsent, hcalls⟩

theorem GetBalances_rejects_malformed_witness :
    GetBalances demoServer ⟨[1, 2], [heldAsset]⟩ (okStream BalanceResponse) =
      ⟨[], some (.status .InvalidArgument "invalid address")⟩ ∧
    calls (GetBalances demoServer ⟨demoAddress, [[1], heldAsset]⟩
      (okStream BalanceResponse)).trace = [] := by
  constructor
  · exact (GetBalances_rejects_malformed demoServer ⟨[1, 2], [heldAsset]⟩
      (okStream BalanceResponse)).1 ⟨"invalid address", false⟩
      (by simp [demoServer, demoPackages])
  · have h := (GetBalances_rejects_malformed demoServer ⟨demoAddress, [[1], heldAsset]⟩
      (okStream BalanceResponse)).2 ⟨demoAddress⟩ [] [1] [heldAsset]
      ⟨"invalid digest len", false⟩
      (by simp [demoServer, demoPackages, demoAddress]) rfl
      (by intro x hx; simp at hx) (by simp)
      (by simp [NewDigestFromBytes, DigestSize]) (fun _ _ => rfl)
    simpa using h.2.2.2

/-! ### `GetDataEntries` -/

/-- C4. `GetDataEntries` with a well-formed address and a non-empty key: a removed
(`DataDelete`) entry gives `NotFound` and no item; a key the store reports as not found
gives success and no item; an entry that is not removed is the one item handed to
`Send` (and the call succeeds when that `Send` does); and an item is emitted only when
the store returned an entry that is not removed. -/
theorem GetDataEntries_by_key (s : Server) (req : DataRequest)
    (srv : Stream DataEntryResponse) (addr : WavesAddress)
    (haddr : s.pkg.Address s.scheme req.Address = .ok addr)
    (hkey : req.Key ≠ "") :
    (∀ entry, s.state.RetrieveEntry (s.pkg.NewRecipientFromAddress addr) req.Key = .ok entry →
      entry.GetValueType = .DataDelete →
      (GetDataEntries s req srv).err = some (.status .NotFound "entry removed") ∧
      sent (GetDataEntries s req srv).trace = []) ∧
    (∀ e, s.state.RetrieveEntry (s.pkg.NewRecipientFromAddress addr) req.Key = .error e →
      e.notFound = true →
      (GetDataEntries s req srv).err = none ∧ sent (GetDataEntries s req srv).trace = []) ∧
    (∀ entry, s.state.RetrieveEntry (s.pkg.NewRecipientFromAddress addr) req.Key = .ok entry →
      entry.GetValueType ≠ .DataDelete →
      sent (GetDataEntries s req srv).trace = [⟨req.Address, s.pkg.EntryToProtobuf entry⟩] ∧
      (srv.Send [] ⟨req.Address, s.pkg.EntryToProtobuf entry⟩ = none →
        (GetDataEntries s req srv).err = none)) ∧
    (sent (GetDataEntries s req srv).trace ≠ [] →
      ∃ entry, s.state.RetrieveEntry (s.pkg.NewRecipientFromAddress addr) req.Key = .ok entry ∧
        entry.GetValueType ≠ .DataDelete) := by
  refine ⟨?_, ?_, ?_, ?_⟩
  · intro entry hentry hdel
    simp [GetDataEntries, haddr, hkey, hentry, hdel, sent]
  · intro e he hnf
    simp [GetDataEntries, haddr, hkey, he, hnf, sent]
  · intro entry hentry hlive
    constructor
    · cases hs : srv.Send [] ⟨req.Address, s.pkg.EntryToProtobuf entry⟩ <;>
        simp [GetDataEntries, haddr, hkey, hentry, hlive, sent, hs]
    · intro hs
      simp [GetDataEntries, haddr, hkey, hentry, hlive, sent, hs]
  · intro hsent
    cases hr : s.state.RetrieveEntry (s.pkg.NewRecipientFromAddress addr) req.Key with
    | error e =>
      exfalso
      apply hsent
      cases hnf : e.notFound <;> simp [GetDataEntries, haddr, hkey, hr, hnf, sent]
    | ok entry =>
      refine ⟨entry, rfl, ?_⟩
      intro hdel
      apply hsent
      simp [GetDataEntries, haddr, hkey, hr, hdel, sent]

theorem GetDataEntries_by_key_witness :
    (GetDataEntries demoServer ⟨demoAddress, "ab"⟩ (okStream DataEntryResponse)).err =
      some (.status .NotFound "entry removed") ∧
    sent (GetDataEntries demoServer ⟨demoAddress, "ab"⟩ (okStream DataEntryResponse)).trace = [] ∧
    (GetDataEntries demoServer ⟨demoAddress, "abc"⟩ (okStream DataEntryResponse)).err = none ∧
    sent (GetDataEntries demoServer ⟨demoAddress, "abc"⟩ (okStream DataEntryResponse)).trace = [] ∧
    sent (GetDataEntries demoServer ⟨demoAddress, "a"⟩ (okStream DataEntryResponse)).trace =
      [⟨demoAddress, ⟨"a", [1]⟩⟩] := by
  have haddr : demoServer.pkg.Address demoServer.scheme demoAddress = .ok ⟨demoAddress⟩ := by
    simp [demoServer, demoPackages, demoAddress]
  have h2 := (GetDataEntries_by_key demoServer ⟨demoAddress, "ab"⟩
    (okStream DataEntryResponse) ⟨demoAddress⟩ haddr (by decide)).1
    ⟨"ab", .DataDelete, []⟩ (by rfl) rfl
  have h3 := (GetDataEntries_by_key demoServer ⟨demoAddress, "abc"⟩
    (okStream DataEntryResponse) ⟨demoAddress⟩ haddr (by decide)).2.1
    ⟨"not found", true⟩ (by rfl) rfl
  have h1 := (GetDataEntries_by_key demoServer ⟨demoAddress, "a"⟩
    (okStream DataEntryResponse) ⟨demoAddress⟩ haddr (by decide)).2.2.1
    ⟨"a", .DataInteger, [1]⟩ (by rfl)
    (by simp [DataEntry.GetValueType])
  exact ⟨h2.1, h2.2, h3.1, h3.2, h1.1⟩

/-- C5. `GetDataEntries` in bulk mode (empty key) on a well-formed address, when every
`Send` succeeds: if `RetrieveEntries` returns the list `E`, the call returns success and
the emitted sequence is `E` without its removed (`DataDelete`) entries, each remaining
entry once and in the order of `E`; if the store reports not-found, the call returns
success with no item. -/
theorem GetDataEntries_bulk (s : Server) (req : DataRequest)
    (srv : Stream DataEntryResponse) (addr : WavesAddress)
    (haddr : s.pkg.Address s.scheme req.Address = .ok addr)
    (hkey : req.Key = "")
    (hsend : ∀ h item, srv.Send h item = none) :
    (∀ E, s.state.RetrieveEntries (s.pkg.NewRecipientFromAddress addr) = .ok E →
      (GetDataEntries s req srv).err = none ∧
      sent (GetDataEntries s req srv).trace =
        (E.filter (fun e => decide (e.GetValueType ≠ .DataDelete))).map
          (fun e => DataEntryResponse.mk req.Address (s.pkg.EntryToProtobuf e))) ∧
    (∀ e, s.state.RetrieveEntries (s.pkg.NewRecipientFromAddress addr) = .error e →
      e.notFound = true →
      (GetDataEntries s req srv).err = none ∧ sent (GetDataEntries s req srv).trace = []) := by
  constructor
  · intro E hE
    have hrun : GetDataEntries s req srv =
        entriesLoop s req srv E [.call (.RetrieveEntries (s.pkg.NewRecipientFromAddress addr))] := by
      simp [GetDataEntries, haddr, hkey, hE]
    rw [hrun, entriesLoop_ok s req srv hsend]
    refine ⟨rfl, ?_⟩
    simp only [sent_append, sent, List.nil_append]
    exact sent_map_send _ _
  · intro e he hnf
    simp [GetDataEntries, haddr, hkey, he, hnf, sent]

theorem GetDataEntries_bulk_witness :
    (GetDataEntries demoServer ⟨demoAddress, ""⟩ (okStream DataEntryResponse)).err = none ∧
    sent (GetDataEntries demoServer ⟨demoAddress, ""⟩ (okStream DataEntryResponse)).trace =
      [⟨demoAddress, ⟨"a", [1]⟩⟩, ⟨demoAddress, ⟨"c", [2]⟩⟩] := by
  have haddr : demoServer.pkg.Address demoServer.scheme demoAddress = .ok ⟨demoAddress⟩ := by
    simp [demoServer, demoPackages, demoAddress]
  have h := (GetDataEntries_bulk demoServer ⟨demoAddress, ""⟩ (okStream DataEntryResponse)
    ⟨demoAddress⟩ haddr rfl (fun _ _ => rfl)).1 _ rfl
  refine ⟨h.1, ?_⟩
  rw [h.2]
  simp [DataEntry.GetValueType, demoServer, demoPackages]

/-! ### `GetActiveLeases` -/

/-- C6, counterexample.  The liveness query of the lease fails (it returns an error)
and the store answers true with it: the filter accepts the lease. -/
theorem filterFn_unreadable_lease_counterexample :
    unreadableState.IsActiveLeasing (demoLease 2 30).ID =
      (true, some ⟨"lease storage failure", false⟩) ∧
    (filterFn ⟨87, unreadableState, demoPackages⟩ (.LeaseWithSig (demoLease 2 30)) []).2 = true ∧
    (filterFn ⟨87, unreadableState, demoPackages⟩ (.LeaseWithProofs (demoLease 2 30)) []).2 =
      true :=
  ⟨rfl, rfl, rfl⟩

/-- C6, amended.  The filter built by `GetActiveLeases` accepts a transaction exactly when
it is a `LeaseWithSig` or a `LeaseWithProofs` and the boolean that `IsActiveLeasing`
answers for its ID is true; the error answered with it is discarded.  It rejects every
other transaction type, and every lease for which the store answers false, be it with no
error (inactive) or with an error (a failed query answering Go's zero value).  The query
is issued by the filter itself each time it examines a lease, and the verdict does not
depend on what was examined before, so the position of a lease in the history does not
matter. -/
theorem filterFn_accepts_only_active_leases (s : Server) (tx : Transaction)
    (tr : Trace LeaseResponse) :
    ((filterFn s tx tr).2 = true ↔
      ∃ t, (tx = .LeaseWithSig t ∨ tx = .LeaseWithProofs t) ∧
        (s.state.IsActiveLeasing t.ID).1 = true) ∧
    (∀ typeTag, tx = .Other typeTag → filterFn s tx tr = (tr, false)) ∧
    (∀ t, (tx = .LeaseWithSig t ∨ tx = .LeaseWithProofs t) →
      filterFn s tx tr =
        (tr ++ [.call (.IsActiveLeasing t.ID)], (s.state.IsActiveLeasing t.ID).1) ∧
      (s.state.IsActiveLeasing t.ID = (false, none) → (filterFn s tx tr).2 = false) ∧
      (∀ e, s.state.IsActiveLeasing t.ID = (false, some e) → (filterFn s tx tr).2 = false)) ∧
    (∀ tr2, (filterFn s tx tr2).2 = (filterFn s tx tr).2) := by
  refine ⟨?_, ?_, ?_, ?_⟩
  · constructor
    · intro h
      cases tx with
      | LeaseWithSig t => exact ⟨t, Or.inl rfl, h⟩
      | LeaseWithProofs t => exact ⟨t, Or.inr rfl, h⟩
      | Other typeTag => simp [filterFn] at h
    · rintro ⟨t, rfl | rfl, hq⟩ <;> exact hq
  · rintro typeTag rfl
    rfl
  · rintro t (rfl | rfl)
    · exact ⟨rfl, fun hq => by simp [filterFn, hq], fun e hq => by simp [filterFn, hq]⟩
    · exact ⟨rfl, fun hq => by simp [filterFn, hq], fun e hq => by simp [filterFn, hq]⟩
  · intro tr2
    cases tx <;> rfl

theorem filterFn_accepts_only_active_leases_witness :
    (filterFn demoServer (.LeaseWithProofs (demoLease 1 40)) []).2 = true ∧
    (filterFn demoServer (.LeaseWithSig (demoLease 2 30)) []).2 = false ∧
    filterFn demoServer (.Other 4) [] = ([], false) := by
  have h1 := filterFn_accepts_only_active_leases demoServer
    (.LeaseWithProofs (demoLease 1 40)) []
  have h2 := filterFn_accepts_only_active_leases demoServer (.LeaseWithSig (demoLease 2 30)) []
  have h3 := filterFn_accepts_only_active_leases demoServer (.Other 4) []
  refine ⟨h1.1.2 ⟨demoLease 1 40, Or.inr rfl, rfl⟩, ?_, h3.2.1 4 rfl⟩
  exact (h2.2.2.1 (demoLease 2 30) (Or.inl rfl)).2.1 rfl

/-- C7. When the store reports that it does not provide the extended API,
`GetActiveLeases` returns `FailedPrecondition` and emits nothing; the only store call it
has issued is `ProvidesExtendedApi`, so no iterator was opened and no liveness or height
lookup was made. -/
theorem GetActiveLeases_requires_extended_api (s : Server) (req : AccountRequest)
    (srv : Stream LeaseResponse)
    (hext : s.state.ProvidesExtendedApi = .ok false) :
    (GetActiveLeases s req srv).err = some (.status .FailedPrecondition
      "Node's state does not have information required for extended API") ∧
    sent (GetActiveLeases s req srv).trace = [] ∧
    calls (GetActiveLeases s req srv).trace = [.ProvidesExtendedApi] ∧
    (∀ addr, StoreCall.NewAddrTransactionsIterator addr ∉
      calls (GetActiveLeases s req srv).trace) ∧
    (∀ id, StoreCall.IsActiveLeasing id ∉ calls (GetActiveLeases s req srv).trace) ∧
    (∀ id, StoreCall.TransactionHeightByID id ∉ calls (GetActiveLeases s req srv).trace) := by
  have hrun : GetActiveLeases s req srv = ⟨[.call .ProvidesExtendedApi],
      some (.status .FailedPrecondition
        "Node's state does not have information required for extended API")⟩ := by
    simp [GetActiveLeases, hext]
  rw [hrun]
  simp [sent, calls]

theorem GetActiveLeases_requires_extended_api_witness :
    (GetActiveLeases ⟨87, lightState, demoPackages⟩ ⟨demoAddress⟩
      (okStream LeaseResponse)).err = some (.status .FailedPrecondition
      "Node's state does not have information required for extended API") ∧
    sent (GetActiveLeases ⟨87, lightState, demoPackages⟩ ⟨demoAddress⟩
      (okStream LeaseResponse)).trace = [] := by
  have h := GetActiveLeases_requires_extended_api ⟨87, lightState, demoPackages⟩
    ⟨demoAddress⟩ (okStream LeaseResponse) rfl
  exact ⟨h.1, h.2.1⟩

/-! ### Emitted amounts -/

/-- C10, counterexample.  The store returns the `uint64` balance `2 ^ 63`; the item
emitted for it carries the negative amount `-2 ^ 63`. -/
theorem GetBalances_amount_counterexample :
    hugeState.AssetBalance demoRecipient ⟨List.replicate 20 7⟩ = .ok (2 ^ 63) ∧
    (2 : Nat) ^ 63 < 2 ^ 64 ∧
    sent (GetBalances ⟨87, hugeState, demoPackages⟩ ⟨demoAddress, [heldAsset]⟩
      (okStream BalanceResponse)).trace = [.Asset ⟨heldAsset, -9223372036854775808⟩] := by
  refine ⟨rfl, by norm_num, ?_⟩
  simp [GetBalances, balancesLoop, hugeState, demoPackages, demoAddress,
    heldAsset, okStream, NewDigestFromBytes, DigestSize, sent,
    Digest.Bytes, int64, List.replicate]

/-- C10, amended.  The amounts emitted are the `int64` conversions of the store's
`uint64` values.  Every asset item that `GetBalances` hands to `Send`, in any run,
carries the bytes of an identifier of the request and `int64 b` for the balance `b` that
the lookup for it returned; and every `AssetBalance` lookup that a run issues and that
succeeds with `b` has its item, carrying `int64 b`, handed to `Send`.  `int64 b` is `b`
itself, and non-negative, when `b < 2 ^ 63`, and is `b - 2 ^ 64`, a negative number, when
`2 ^ 63 ≤ b < 2 ^ 64`.  The lease handler sends the `int64` conversions of the lease
amount and of the height, which equal them below `2 ^ 63`. -/
theorem emitted_amounts_are_int64_conversions (s : Server) :
    (∀ (req : BalancesRequest) (srv : Stream BalanceResponse) (am : Amount),
      BalanceResponse.Asset am ∈ sent (GetBalances s req srv).trace →
      ∃ addr, s.pkg.Address s.scheme req.Address = .ok addr ∧
        ∃ a ∈ req.Assets, ∃ d b, NewDigestFromBytes a = .ok d ∧
          s.state.AssetBalance (s.pkg.NewRecipientFromAddress addr)
            (s.pkg.AssetIDFromDigest d) = .ok b ∧
          am = ⟨a, int64 b⟩ ∧
          (b < 2 ^ 63 → am.Amount = (b : Int) ∧ 0 ≤ am.Amount) ∧
          (2 ^ 63 ≤ b → b < 2 ^ 64 → am.Amount = (b : Int) - 2 ^ 64 ∧ am.Amount < 0)) ∧
    (∀ (req : BalancesRequest) (srv : Stream BalanceResponse) (addr : WavesAddress)
      (aid : AssetID) (b : Nat),
      s.pkg.Address s.scheme req.Address = .ok addr →
      StoreCall.AssetBalance (s.pkg.NewRecipientFromAddress addr) aid ∈
        calls (GetBalances s req srv).trace →
      s.state.AssetBalance (s.pkg.NewRecipientFromAddress addr) aid = .ok b →
      ∃ a ∈ req.Assets, ∃ d, NewDigestFromBytes a = .ok d ∧ s.pkg.AssetIDFromDigest d = aid ∧
        BalanceResponse.Asset ⟨a, int64 b⟩ ∈ sent (GetBalances s req srv).trace ∧
        (b < 2 ^ 63 → int64 b = (b : Int) ∧ 0 ≤ int64 b) ∧
        (2 ^ 63 ≤ b → b < 2 ^ 64 → int64 b = (b : Int) - 2 ^ 64 ∧ int64 b < 0)) ∧
    (∀ (srv : Stream LeaseResponse) (tx : Transaction) (t : Lease)
      (status : TransactionStatus) (tr : Trace LeaseResponse) (sender : WavesAddress)
      (height : Nat) (rcp : Bytes),
      (tx = .LeaseWithSig t ∨ tx = .LeaseWithProofs t) →
      s.pkg.NewAddressFromPublicKey s.scheme t.SenderPK = .ok sender →
      s.state.TransactionHeightByID t.ID.Bytes = .ok height →
      s.pkg.RecipientToProtobuf t.Recipient = .ok rcp →
      sent (handle s srv tx status tr).1 = sent tr ++
        [⟨t.ID.Bytes, t.ID.Bytes, sender.bytes, rcp, int64 t.Amount, int64 height⟩] ∧
      (t.Amount < 2 ^ 63 → int64 t.Amount = (t.Amount : Int) ∧ 0 ≤ int64 t.Amount) ∧
      (height < 2 ^ 63 → int64 height = (height : Int) ∧ 0 ≤ int64 height)) := by
  refine ⟨?_, ?_, ?_⟩
  · intro req srv am h
    obtain ⟨addr, haddr, a, ha, d, b, hd, hb, ham⟩ := GetBalances_sent_asset s req srv am h
    refine ⟨addr, haddr, a, ha, d, b, hd, hb, ham, ?_, ?_⟩
    · intro hlt
      rw [ham]
      exact int64_of_lt b hlt
    · intro hge h64
      rw [ham]
      exact int64_of_ge b hge h64
  · intro req srv addr aid b haddr hcall hb
    obtain ⟨a, ha, d, hd, haid, hmem⟩ :=
      (GetBalances_issued_lookup s req srv addr aid haddr hcall).1 b hb
    exact ⟨a, ha, d, hd, haid, hmem, int64_of_lt b, int64_of_ge b⟩
  · rintro srv tx t status tr sender height rcp (rfl | rfl) hsender hheight hrcp
    · refine ⟨?_, int64_of_lt _, int64_of_lt _⟩
      simp only [handle, hsender]
      exact handleLease_sent s srv _ sender _ _ tr height rcp hheight hrcp
    · refine ⟨?_, int64_of_lt _, int64_of_lt _⟩
      simp only [handle, hsender]
      exact handleLease_sent s srv _ sender _ _ tr height rcp hheight hrcp

theorem emitted_amounts_are_int64_conversions_witness :
    (∃ addr, demoServer.pkg.Address demoServer.scheme demoAddress = .ok addr ∧
      ∃ a ∈ [heldAsset, missingAsset], ∃ d b, NewDigestFromBytes a = .ok d ∧
        demoServer.state.AssetBalance (demoServer.pkg.NewRecipientFromAddress addr)
          (demoServer.pkg.AssetIDFromDigest d) = .ok b ∧
        (⟨heldAsset, 5⟩ : Amount) = ⟨a, int64 b⟩ ∧
        (b < 2 ^ 63 → (5 : Int) = (b : Int) ∧ (0 : Int) ≤ 5) ∧
        (2 ^ 63 ≤ b → b < 2 ^ 64 → (5 : Int) = (b : Int) - 2 ^ 64 ∧ (5 : Int) < 0)) ∧
    sent (handle demoServer (okStream LeaseResponse) (.LeaseWithProofs (demoLease 1 40)) 0 []).1 =
      [⟨List.replicate 32 1, List.replicate 32 1, [9], [8], 40, 10⟩] := by
  have hmem : BalanceResponse.Asset ⟨heldAsset, 5⟩ ∈
      sent (GetBalances demoServer ⟨demoAddress, [heldAsset, missingAsset]⟩
        (okStream BalanceResponse)).trace := by
    simp [GetBalances, balancesLoop, demoServer, demoState, demoPackages, demoAddress,
      heldAsset, missingAsset, okStream, NewDigestFromBytes, DigestSize, sent, sent_append,
      Digest.Bytes, int64, List.replicate]
  refine ⟨(emitted_amounts_are_int64_conversions demoServer).1
    ⟨demoAddress, [heldAsset, missingAsset]⟩ (okStream BalanceResponse) ⟨heldAsset, 5⟩ hmem, ?_⟩
  have h := (emitted_amounts_are_int64_conversions demoServer).2.2 (okStream LeaseResponse)
    (.LeaseWithProofs (demoLease 1 40)) (demoLease 1 40) 0 [] ⟨[9]⟩ 10 [8]
    (Or.inr rfl) rfl rfl rfl
  rw [h.1, (h.2.1 (by norm_num [demoLease])).1, (h.2.2 (by norm_num)).1]
  simp [sent, demoLease, Digest.Bytes]

/-! ### Classification of store errors -/

/-- C8, counterexample.  Four store faults, none of them a not-found condition:
`GetScript` hands the fault of `ScriptInfoByAccount` back as it came, not as a status
error, and the faults of `AssetBalance`, `AddrByAlias` and `RetrieveEntry` are reported
as `NotFound`, not as `Internal`. -/
theorem store_error_classification_counterexample :
    demoState.ScriptInfoByAccount demoRecipient = .error ⟨"script storage failure", false⟩ ∧
    GetScript demoServer ⟨demoAddress⟩ = .error (.raw ⟨"script storage failure", false⟩) ∧
    faultyState.AssetBalance demoRecipient ⟨List.replicate 20 7⟩ =
      .error ⟨"storage failure", false⟩ ∧
    (GetBalances ⟨87, faultyState, demoPackages⟩ ⟨demoAddress, [heldAsset]⟩
      (okStream BalanceResponse)).err = some (.status .NotFound "storage failure") ∧
    demoState.AddrByAlias ⟨87, "alice"⟩ = .error ⟨"storage failure", false⟩ ∧
    ResolveAlias demoServer "alice" = .error (.status .NotFound "storage failure") ∧
    demoState.RetrieveEntry demoRecipient "abcd" = .error ⟨"storage failure", false⟩ ∧
    (GetDataEntries demoServer ⟨demoAddress, "abcd"⟩ (okStream DataEntryResponse)).err =
      some (.status .NotFound "storage failure") := by
  refine ⟨rfl, ?_, rfl, ?_, rfl, ?_, rfl, ?_⟩
  · simp [GetScript, demoServer, demoPackages, demoState, demoAddress]
  · simp [GetBalances, balancesLoop, faultyState, demoPackages, demoAddress,
      heldAsset, NewDigestFromBytes, DigestSize]
  · simp [ResolveAlias, demoServer, demoState]
  · rfl

/-- Every error of `GetActiveLeases` is a status error. -/
theorem GetActiveLeases_err_status (s : Server) (req : AccountRequest)
    (srv : Stream LeaseResponse) (e : RpcError)
    (h : (GetActiveLeases s req srv).err = some e) :
    ∃ m, e = .status .InvalidArgument m ∨ e = .status .FailedPrecondition m ∨
      e = .status .Internal m := by
  unfold GetActiveLeases at h
  cases hext : s.state.ProvidesExtendedApi with
  | error err =>
    simp only [hext, Option.some.injEq] at h
    exact ⟨err.msg, Or.inr (Or.inr h.symm)⟩
  | ok ext =>
    simp only [hext] at h
    cases ext with
    | false =>
      simp only [Bool.not_false, if_true, Option.some.injEq] at h
      exact ⟨_, Or.inr (Or.inl h.symm)⟩
    | true =>
      simp only [Bool.not_true, Bool.false_eq_true, if_false] at h
      cases haddr : s.pkg.Address s.scheme req.Address with
      | error err =>
        simp only [haddr, Option.some.injEq] at h
        exact ⟨err.msg, Or.inl h.symm⟩
      | ok addr =>
        simp only [haddr] at h
        cases hit : s.state.NewAddrTransactionsIterator addr with
        | error err =>
          simp only [hit, Option.some.injEq] at h
          exact ⟨err.msg, Or.inr (Or.inr h.symm)⟩
        | ok it =>
          simp only [hit] at h
          cases it with
          | none => simp at h
          | some iter =>
            simp only at h
            generalize iterateAndHandleTransactions (filterFn s) (handle s srv) iter
              ([Event.call StoreCall.ProvidesExtendedApi] ++
                [Event.call (StoreCall.NewAddrTransactionsIterator addr)]) = r at h
            obtain ⟨tr2, oe⟩ := r
            cases oe with
            | none => simp at h
            | some err =>
              simp only [Option.some.injEq] at h
              exact ⟨err.msg, Or.inr (Or.inr h.symm)⟩

/-- Every error of `GetDataEntries` is a status error. -/
theorem GetDataEntries_err_status (s : Server) (req : DataRequest)
    (srv : Stream DataEntryResponse) (e : RpcError)
    (h : (GetDataEntries s req srv).err = some e) :
    ∃ m, e = .status .InvalidArgument m ∨ e = .status .NotFound m ∨
      e = .status .Internal m := by
  unfold GetDataEntries at h
  cases haddr : s.pkg.Address s.scheme req.Address with
  | error err =>
    simp only [haddr, Option.some.injEq] at h
    exact ⟨err.msg, Or.inl h.symm⟩
  | ok addr =>
    simp only [haddr] at h
    by_cases hkey : req.Key = ""
    · simp only [hkey, ne_eq, not_true_eq_false, if_false] at h
      cases hr : s.state.RetrieveEntries (s.pkg.NewRecipientFromAddress addr) with
      | error err =>
        simp only [hr] at h
        cases hnf : err.notFound with
        | true => simp [hnf] at h
        | false =>
          simp only [hnf, Bool.false_eq_true, if_false, Option.some.injEq] at h
          exact ⟨err.msg, Or.inr (Or.inr h.symm)⟩
      | ok entries =>
        simp only [hr] at h
        obtain ⟨m, hm⟩ := entriesLoop_err_status s req srv _ _ e h
        exact ⟨m, Or.inr (Or.inr hm)⟩
    · simp only [ne_eq, hkey, not_false_eq_true, if_true] at h
      cases hr : s.state.RetrieveEntry (s.pkg.NewRecipientFromAddress addr) req.Key with
      | error err =>
        simp only [hr] at h
        cases hnf : err.notFound with
        | true => simp [hnf] at h
        | false =>
          simp only [hnf, Bool.false_eq_true, if_false, Option.some.injEq] at h
          exact ⟨err.msg, Or.inr (Or.inl h.symm)⟩
      | ok entry =>
        simp only [hr] at h
        by_cases hdel : entry.GetValueType = .DataDelete
        · simp only [hdel, if_true, Option.some.injEq] at h
          exact ⟨_, Or.inr (Or.inl h.symm)⟩
        · simp only [hdel, if_false] at h
          cases hs : srv.Send (sent [Event.call (StoreCall.RetrieveEntry
              (s.pkg.NewRecipientFromAddress addr) req.Key)])
              ⟨req.Address, s.pkg.EntryToProtobuf entry⟩ with
          | none => simp [hs] at h
          | some err =>
            simp only [hs, Option.some.injEq] at h
            exact ⟨err.msg, Or.inr (Or.inr h.symm)⟩

/-- A `Send` of `GetBalances` that fails makes the call return `Internal` with its
message. -/
theorem GetBalances_send_fault (s : Server) (req : BalancesRequest)
    (srv : Stream BalanceResponse) (hist : List BalanceResponse) (item : BalanceResponse)
    (more : List BalanceResponse) (err : Error)
    (h : sent (GetBalances s req srv).trace = hist ++ item :: more)
    (hfail : srv.Send hist item = some err) :
    (GetBalances s req srv).err = some (.status .Internal err.msg) := by
  cases haddr : s.pkg.Address s.scheme req.Address with
  | error e =>
    have ht : sent (GetBalances s req srv).trace = [] := by simp [GetBalances, haddr, sent]
    rw [ht] at h
    exact (no_split_beyond _ hist item more h (Nat.zero_le _)).elim
  | ok addr =>
    by_cases hne : req.Assets = []
    · obtain ⟨htr, hor⟩ := GetBalances_nil s req srv addr haddr hne
      rw [htr] at h
      have h2 : ([] : List BalanceResponse) ++
          wavesResponse s (s.pkg.NewRecipientFromAddress addr) :: [] = hist ++ item :: more := by
        simpa [sent] using h
      rcases append_cons_eq _ _ _ _ _ _ h2 (Nat.zero_le _) with ⟨h1, h3, -⟩ | hlt
      · rw [h1, h3] at hfail
        rcases hor with ⟨hs, -⟩ | ⟨err0, hs, herr⟩
        · rw [hs] at hfail
          cases hfail
        · rw [hs] at hfail
          cases hfail
          exact herr
      · have := congrArg List.length h2
        simp at this
        omega
    · rw [GetBalances_eq_loop s req srv addr haddr hne] at h ⊢
      exact balancesLoop_send_fault s _ srv hist item more err hfail _ _ h (Nat.zero_le _)

/-- Every error of `GetBalances` is a status error whose code tells what failed. -/
theorem GetBalances_err_cases (s : Server) (req : BalancesRequest)
    (srv : Stream BalanceResponse) (e : RpcError)
    (h : (GetBalances s req srv).err = some e) :
    (∃ err, s.pkg.Address s.scheme req.Address = .error err ∧
      e = .status .InvalidArgument err.msg) ∨
    (∃ a ∈ req.Assets, ∃ err, NewDigestFromBytes a = .error err ∧
      e = .status .InvalidArgument err.msg) ∨
    (∃ addr, s.pkg.Address s.scheme req.Address = .ok addr ∧
      ∃ a ∈ req.Assets, ∃ d err, NewDigestFromBytes a = .ok d ∧
        s.state.AssetBalance (s.pkg.NewRecipientFromAddress addr)
          (s.pkg.AssetIDFromDigest d) = .error err ∧
        e = .status .NotFound err.msg) ∨
    (∃ hist item err, sent (GetBalances s req srv).trace = hist ++ [item] ∧
      srv.Send hist item = some err ∧ e = .status .Internal err.msg) := by
  cases haddr : s.pkg.Address s.scheme req.Address with
  | error err =>
    simp only [GetBalances, haddr, Option.some.injEq] at h
    exact Or.inl ⟨err, rfl, h.symm⟩
  | ok addr =>
    by_cases hne : req.Assets = []
    · obtain ⟨htr, hor⟩ := GetBalances_nil s req srv addr haddr hne
      rcases hor with ⟨-, h0⟩ | ⟨err, hs, herr⟩
      · rw [h0] at h
        cases h
      · rw [herr] at h
        simp only [Option.some.injEq] at h
        refine Or.inr (Or.inr (Or.inr ⟨[], _, err, ?_, hs, h.symm⟩))
        rw [htr]
        simp [sent]
    · rw [GetBalances_eq_loop s req srv addr haddr hne] at h ⊢
      rcases balancesLoop_err_cases s _ srv _ _ e h with r | r | r
      · exact Or.inr (Or.inl r)
      · exact Or.inr (Or.inr (Or.inl ⟨addr, rfl, r⟩))
      · exact Or.inr (Or.inr (Or.inr r))

/-- C8, amended.  Every error that `GetBalances`, `GetActiveLeases`, `GetDataEntries` or
`ResolveAlias` returns is a status error, never a raw store error, and its code follows
from the call that failed, not from the kind of fault.  In `GetBalances` an
`AssetBalance` lookup that the run issues and that fails, whatever the fault, makes the
call return `NotFound` with the message of the store; the other errors of `GetBalances`
are `InvalidArgument` for a malformed address or identifier and `Internal` for the failed
`Send` of the last item, and a `Send` that fails always gives `Internal`.  In
`GetActiveLeases` a failure of `ProvidesExtendedApi`, of
`NewAddrTransactionsIterator`, or of a `TransactionHeightByID` lookup that the handler
issues makes the call return `Internal`; its other errors are `InvalidArgument` and
`FailedPrecondition`.  In `GetDataEntries` a fault of `RetrieveEntries` that is not a
not-found condition gives `Internal`, and every error is `InvalidArgument`, `NotFound` or
`Internal`.  `ResolveAlias` fails exactly when `AddrByAlias` fails, and then with
`NotFound` and the message of the store. -/
theorem returned_errors_are_status_errors (s : Server) :
    (∀ (req : BalancesRequest) (srv : Stream BalanceResponse) (e : RpcError),
      (GetBalances s req srv).err = some e →
      (∃ err, s.pkg.Address s.scheme req.Address = .error err ∧
        e = .status .InvalidArgument err.msg) ∨
      (∃ a ∈ req.Assets, ∃ err, NewDigestFromBytes a = .error err ∧
        e = .status .InvalidArgument err.msg) ∨
      (∃ addr, s.pkg.Address s.scheme req.Address = .ok addr ∧
        ∃ a ∈ req.Assets, ∃ d err, NewDigestFromBytes a = .ok d ∧
          s.state.AssetBalance (s.pkg.NewRecipientFromAddress addr)
            (s.pkg.AssetIDFromDigest d) = .error err ∧
          e = .status .NotFound err.msg) ∨
      (∃ hist item err, sent (GetBalances s req srv).trace = hist ++ [item] ∧
        srv.Send hist item = some err ∧ e = .status .Internal err.msg)) ∧
    (∀ (req : BalancesRequest) (srv : Stream BalanceResponse) (addr : WavesAddress)
      (aid : AssetID) (err : Error),
      s.pkg.Address s.scheme req.Address = .ok addr →
      StoreCall.AssetBalance (s.pkg.NewRecipientFromAddress addr) aid ∈
        calls (GetBalances s req srv).trace →
      s.state.AssetBalance (s.pkg.NewRecipientFromAddress addr) aid = .error err →
      (GetBalances s req srv).err = some (.status .NotFound err.msg)) ∧
    (∀ (req : BalancesRequest) (srv : Stream BalanceResponse) (hist : List BalanceResponse)
      (item : BalanceResponse) (more : List BalanceResponse) (err : Error),
      sent (GetBalances s req srv).trace = hist ++ item :: more →
      srv.Send hist item = some err →
      (GetBalances s req srv).err = some (.status .Internal err.msg)) ∧
    (∀ (req : AccountRequest) (srv : Stream LeaseResponse) (e : RpcError),
      (GetActiveLeases s req srv).err = some e →
      ∃ m, e = .status .InvalidArgument m ∨ e = .status .FailedPrecondition m ∨
        e = .status .Internal m) ∧
    (∀ (req : AccountRequest) (srv : Stream LeaseResponse) (err : Error),
      s.state.ProvidesExtendedApi = .error err →
      (GetActiveLeases s req srv).err = some (.status .Internal err.msg)) ∧
    (∀ (req : AccountRequest) (srv : Stream LeaseResponse) (addr : WavesAddress) (err : Error),
      s.state.ProvidesExtendedApi = .ok true →
      s.pkg.Address s.scheme req.Address = .ok addr →
      s.state.NewAddrTransactionsIterator addr = .error err →
      (GetActiveLeases s req srv).err = some (.status .Internal err.msg)) ∧
    (∀ (req : AccountRequest) (srv : Stream LeaseResponse) (id : Bytes) (err : Error),
      StoreCall.TransactionHeightByID id ∈ calls (GetActiveLeases s req srv).trace →
      s.state.TransactionHeightByID id = .error err →
      ∃ m, (GetActiveLeases s req srv).err = some (.status .Internal m)) ∧
    (∀ (req : DataRequest) (srv : Stream DataEntryResponse) (e : RpcError),
      (GetDataEntries s req srv).err = some e →
      ∃ m, e = .status .InvalidArgument m ∨ e = .status .NotFound m ∨
        e = .status .Internal m) ∧
    (∀ (req : DataRequest) (srv : Stream DataEntryResponse) (addr : WavesAddress) (err : Error),
      s.pkg.Address s.scheme req.Address = .ok addr →
      req.Key = "" →
      s.state.RetrieveEntries (s.pkg.NewRecipientFromAddress addr) = .error err →
      err.notFound = false →
      (GetDataEntries s req srv).err = some (.status .Internal err.msg)) ∧
    (∀ (req : String) (err : Error),
      s.state.AddrByAlias (s.pkg.NewAlias s.scheme req) = .error err →
      ResolveAlias s req = .error (.status .NotFound err.msg)) ∧
    (∀ (req : String) (e : RpcError), ResolveAlias s req = .error e →
      ∃ err, s.state.AddrByAlias (s.pkg.NewAlias s.scheme req) = .error err ∧
        e = .status .NotFound err.msg) := by
  refine ⟨?_, ?_, ?_, ?_, ?_, ?_, ?_, ?_, ?_, ?_, ?_⟩
  · intro req srv e h
    exact GetBalances_err_cases s req srv e h
  · intro req srv addr aid err haddr hcall herr
    exact (GetBalances_issued_lookup s req srv addr aid haddr hcall).2 err herr
  · intro req srv hist item more err h hfail
    exact GetBalances_send_fault s req srv hist item more err h hfail
  · intro req srv e h
    exact GetActiveLeases_err_status s req srv e h
  · intro req srv err hext
    simp [GetActiveLeases, hext]
  · intro req srv addr err hext haddr hit
    simp [GetActiveLeases, hext, haddr, hit]
  · intro req srv id err hcall herr
    exact GetActiveLeases_height_fault s req srv id err herr hcall
  · intro req srv e h
    exact GetDataEntries_err_status s req srv e h
  · intro req srv addr err haddr hkey hr hnf
    simp [GetDataEntries, haddr, hkey, hr, hnf]
  · intro req err hr
    simp [ResolveAlias, hr]
  · intro req e h
    unfold ResolveAlias at h
    cases hr : s.state.AddrByAlias (s.pkg.NewAlias s.scheme req) with
    | error err =>
      simp only [hr, Except.error.injEq] at h
      exact ⟨err, rfl, h.symm⟩
    | ok addr => simp [hr] at h

theorem returned_errors_are_status_errors_witness :
    faultyState.AssetBalance demoRecipient ⟨List.replicate 20 7⟩ =
      .error ⟨"storage failure", false⟩ ∧
    (GetBalances ⟨87, faultyState, demoPackages⟩ ⟨demoAddress, [[], heldAsset, heldAsset]⟩
      (okStream BalanceResponse)).err = some (.status .NotFound "storage failure") ∧
    (∃ m, (GetActiveLeases ⟨87, noHeightState, demoPackages⟩ ⟨demoAddress⟩
      (okStream LeaseResponse)).err = some (.status .Internal m)) ∧
    ResolveAlias demoServer "alice" = .error (.status .NotFound "storage failure") := by
  have hb : faultyState.AssetBalance demoRecipient ⟨List.replicate 20 7⟩ =
      .error ⟨"storage failure", false⟩ := rfl
  have haddr : demoPackages.Address 87 demoAddress = .ok ⟨demoAddress⟩ := by
    simp [demoPackages, demoAddress]
  refine ⟨hb, ?_, ?_, ?_⟩
  · refine (returned_errors_are_status_errors ⟨87, faultyState, demoPackages⟩).2.1
      ⟨demoAddress, [[], heldAsset, heldAsset]⟩ (okStream BalanceResponse) ⟨demoAddress⟩
      ⟨List.replicate 20 7⟩ ⟨"storage failure", false⟩ haddr ?_ hb
    simp [GetBalances, balancesLoop, sendWavesBalance, faultyState, demoPackages, demoAddress,
      heldAsset, okStream, NewDigestFromBytes, DigestSize, sent, sent_append, calls,
      calls_append, List.replicate]
  · refine (returned_errors_are_status_errors ⟨87, noHeightState, demoPackages⟩).2.2.2.2.2.2.1
      ⟨demoAddress⟩ (okStream LeaseResponse) (List.replicate 32 1)
      ⟨"height storage failure", false⟩ ?_ rfl
    simp [GetActiveLeases, iterateAndHandleTransactions, filterFn, handle, handleLease,
      noHeightState, demoState, demoPackages, demoAddress, demoLease, calls, calls_append,
      Digest.Bytes, List.replicate]
  · exact (returned_errors_are_status_errors demoServer).2.2.2.2.2.2.2.2.2.1 "alice"
      ⟨"storage failure", false⟩ rfl

end AccountsApi
